import Mathlib

/-!
# interpreter-dispatch-bench

A shallow embedding of `bench.c`: the instruction and register model, the five
opcode handlers, the synthetic program generator, the validator and the three
dispatch engines (switch, computed goto, tail call), followed by theorems about
them.

Modelling conventions.

* C `int` is 32 bits wide.  Values are mathematical integers; the results of
  `+`, `-` and `*` on `int` are reduced by `wrap32` to the two's-complement
  range, which is what the compiled benchmark computes.  `/` truncates toward
  zero and cannot leave the range for a divisor in `[1, 255]`.
* `uint8_t` fields are natural numbers; a store into one reduces modulo 256.
* Behaviour that C leaves undefined and that the benchmark relies on never
  happening (a fetch outside the instruction buffer, a register index outside
  `regs`, a dispatch-table index outside the table, division by zero) is a
  `Fault`.
* Loops and tail calls are bounded by a fuel argument that counts fetches; a run
  that needs more fetches than the fuel allows yields `Outcome.outOfFuel`.
* The global buffer `insns` and the state of the C library's pseudo-random
  generator are passed explicitly.
-/

namespace Bench

/-! ## Opcodes, registers and flags -/

abbrev OP_ADD : Nat := 0
abbrev OP_SUB : Nat := 1
abbrev OP_MUL : Nat := 2
abbrev OP_DIV : Nat := 3
abbrev OP_HALT : Nat := 4
abbrev OP__COUNT : Nat := 5

abbrev REG_PC : Nat := 0
abbrev REG_FLAGS : Nat := 1
abbrev REG_ACC : Nat := 2
abbrev REG__COUNT : Nat := 3

abbrev FLAG_HALTED : Int := 1

/-- Least value of a 32-bit `int`. -/
abbrev INT_MIN : Int := -2147483648

/-- Greatest value of a 32-bit `int`. -/
abbrev INT_MAX : Int := 2147483647

/-- Reduction of an integer to the 32-bit two's-complement range. -/
def wrap32 (x : Int) : Int := (x + 2147483648) % 4294967296 - 2147483648

/-- The struct `Instruction`: `uint8_t op; uint8_t args[3]`. -/
structure Instruction where
  op : Nat
  args0 : Nat
  args1 : Nat
  args2 : Nat
deriving DecidableEq, Repr

/-- The struct `MachineState`: `int regs[REG__COUNT]`, one field per register
in the order `REG_PC`, `REG_FLAGS`, `REG_ACC`. -/
structure MachineState where
  pc : Int
  flags : Int
  acc : Int
deriving DecidableEq, Repr

/-- What `memset(&state, 0, sizeof(state))` leaves. -/
def MachineState.zero : MachineState := ⟨0, 0, 0⟩

/-- Undefined behaviour the embedding makes explicit. -/
inductive Fault where
  | fetchOutOfRange
  | regOutOfRange
  | opOutOfRange
  | divByZero
deriving DecidableEq, Repr

/-- Result of a handler or of a fetch. -/
inductive Res (α : Type) where
  | ok (a : α)
  | error (f : Fault)
deriving DecidableEq, Repr

/-- Sequencing of fallible steps. -/
def Res.bind {α β : Type} (r : Res α) (k : α → Res β) : Res β :=
  match r with
  | .ok a => k a
  | .error f => .error f

/-- Result of running an engine with a bound on the number of fetches. -/
inductive Outcome where
  | done (state : MachineState)
  | fault (f : Fault)
  | outOfFuel
deriving DecidableEq, Repr

/-- Read of `state->regs[r]`. -/
def getReg (state : MachineState) (r : Nat) : Res Int :=
  if r = REG_PC then .ok state.pc
  else if r = REG_FLAGS then .ok state.flags
  else if r = REG_ACC then .ok state.acc
  else .error .regOutOfRange

/-- Write `state->regs[r] = v`. -/
def setReg (state : MachineState) (r : Nat) (v : Int) : Res MachineState :=
  if r = REG_PC then .ok { state with pc := v }
  else if r = REG_FLAGS then .ok { state with flags := v }
  else if r = REG_ACC then .ok { state with acc := v }
  else .error .regOutOfRange

/-- The statement `state->regs[REG_PC] += 1`. -/
def advance_pc (state : MachineState) : MachineState :=
  { state with pc := wrap32 (state.pc + 1) }

/-! ## Opcode handlers -/

/-- Handler `impl_OP_ADD`: `regs[args[0]] = regs[args[1]] + args[2]`, then
`regs[REG_PC] += 1`. -/
def impl_OP_ADD (state : MachineState) (insn : Instruction) : Res MachineState :=
  (getReg state insn.args1).bind fun src =>
  (setReg state insn.args0 (wrap32 (src + insn.args2))).bind fun state =>
  .ok (advance_pc state)

/-- Handler `impl_OP_SUB`: `regs[args[0]] = regs[args[1]] - args[2]`, then
`regs[REG_PC] += 1`. -/
def impl_OP_SUB (state : MachineState) (insn : Instruction) : Res MachineState :=
  (getReg state insn.args1).bind fun src =>
  (setReg state insn.args0 (wrap32 (src - insn.args2))).bind fun state =>
  .ok (advance_pc state)

/-- Handler `impl_OP_MUL`: `regs[args[0]] = regs[args[1]] * args[2]`, then
`regs[REG_PC] += 1`. -/
def impl_OP_MUL (state : MachineState) (insn : Instruction) : Res MachineState :=
  (getReg state insn.args1).bind fun src =>
  (setReg state insn.args0 (wrap32 (src * insn.args2))).bind fun state =>
  .ok (advance_pc state)

/-- Handler `impl_OP_DIV`: `regs[args[0]] = regs[args[1]] / args[2]`, then
`regs[REG_PC] += 1`; a zero divisor is a fault. -/
def impl_OP_DIV (state : MachineState) (insn : Instruction) : Res MachineState :=
  (getReg state insn.args1).bind fun src =>
  if insn.args2 = 0 then .error .divByZero
  else
    (setReg state insn.args0 (Int.tdiv src insn.args2)).bind fun state =>
    .ok (advance_pc state)

/-- Handler `impl_OP_HALT`: `regs[REG_FLAGS] |= FLAG_HALTED`, then
`regs[REG_PC] += 1`; the instruction is not read. -/
def impl_OP_HALT (state : MachineState) (_insn : Instruction) : Res MachineState :=
  .ok (advance_pc { state with flags := Int.lor state.flags FLAG_HALTED })

/-- The test `!(state->regs[REG_FLAGS] & FLAG_HALTED)`. -/
def should_run (state : MachineState) : Bool :=
  Int.land state.flags FLAG_HALTED == 0

/-- The fetch `&insns[state->regs[REG_PC]]` followed by a read of the
instruction. -/
def fetch (insns : List Instruction) (pc : Int) : Res Instruction :=
  if 0 ≤ pc then
    match insns[pc.toNat]? with
    | some insn => .ok insn
    | none => .error .fetchOutOfRange
  else .error .fetchOutOfRange

/-! ## Program generator and validator -/

/-- State of the C library's pseudo-random generator: the seed last given to
`srand` and the number of `rand` calls made since. -/
structure RandState where
  seed : Nat
  calls : Nat
deriving DecidableEq, Repr

/-- The call `srand(seed)`. -/
def srand (seed : Nat) : RandState := ⟨seed, 0⟩

/-- One call of `rand()`; `gen seed k` is the library's `k`-th result after
`srand(seed)`, a non-negative `int`. -/
def rand (gen : Nat → Nat → Nat) (r : RandState) : Nat × RandState :=
  (gen r.seed r.calls, ⟨r.seed, r.calls + 1⟩)

/-- The loop of `init_insns`: `todo` iterations remain and `i` is the loop
variable. -/
def init_insns_loop (gen : Nat → Nat → Nat) :
    Nat → Nat → RandState → List Instruction → RandState × List Instruction
  | 0, _, r, insns => (r, insns)
  | todo + 1, i, r, insns =>
    if i = insns.length - 1 then
      init_insns_loop gen todo (i + 1) r
        (insns.set i ⟨OP_HALT % 256, REG_ACC, REG_ACC, 0 % 256⟩)
    else
      let (x, r) := rand gen r
      let op := x % (OP__COUNT - 1)
      let (y, r) := rand gen r
      let val := y % 10
      let val := if op = OP_DIV ∧ val = 0 then 1 else val
      init_insns_loop gen todo (i + 1) r
        (insns.set i ⟨op % 256, REG_ACC, REG_ACC, val % 256⟩)

/-- The function `init_insns`, on the buffer `insns` whose length is
`ARRAY_SIZE(insns)`; the generator state on entry is overwritten by
`srand(1337)`. -/
def init_insns (gen : Nat → Nat → Nat) (_r : RandState) (insns : List Instruction) :
    RandState × List Instruction :=
  init_insns_loop gen insns.length 0 (srand 1337) insns

/-- C `assert`: `none` is the abort. -/
def assert (c : Bool) : Option Unit := if c then some () else none

/-- The three assertions of `validate_insn`. -/
def validate_insn (insn : Instruction) : Option Unit :=
  (assert (insn.op < OP__COUNT)).bind fun _ =>
  (assert (insn.args0 < REG__COUNT)).bind fun _ =>
  assert (insn.args1 < REG__COUNT)

/-- The loop of `validate_insns` over the buffer. -/
def validate_insns : List Instruction → Option Unit
  | [] => some ()
  | insn :: rest => (validate_insn insn).bind fun _ => validate_insns rest

/-! ## Dispatch engines -/

/-- The function `exec_switch_interp`: a `switch` without `default`, so an
opcode that matches no case leaves the state as it is. -/
def exec_switch_interp (insns : List Instruction) : Nat → MachineState → Outcome
  | 0, state => if should_run state then .outOfFuel else .done state
  | fuel + 1, state =>
    if should_run state then
      match fetch insns state.pc with
      | .error f => .fault f
      | .ok insn =>
        let r :=
          if insn.op = OP_ADD then impl_OP_ADD state insn
          else if insn.op = OP_SUB then impl_OP_SUB state insn
          else if insn.op = OP_MUL then impl_OP_MUL state insn
          else if insn.op = OP_DIV then impl_OP_DIV state insn
          else if insn.op = OP_HALT then impl_OP_HALT state insn
          else .ok state
        match r with
        | .error f => .fault f
        | .ok state => exec_switch_interp insns fuel state
    else .done state

/-- The labels `CASE_OP_*` of `exec_goto_interp`. -/
inductive Label where
  | CASE_OP_ADD
  | CASE_OP_SUB
  | CASE_OP_MUL
  | CASE_OP_DIV
  | CASE_OP_HALT
deriving DecidableEq, Repr

/-- The table `goto_dispatch_tbl`, indexed by opcode. -/
def goto_dispatch_tbl : List Label :=
  [.CASE_OP_ADD, .CASE_OP_SUB, .CASE_OP_MUL, .CASE_OP_DIV, .CASE_OP_HALT]

/-- The handler call at a label, before its `DISPATCH()`. -/
def goto_case : Label → MachineState → Instruction → Res MachineState
  | .CASE_OP_ADD => impl_OP_ADD
  | .CASE_OP_SUB => impl_OP_SUB
  | .CASE_OP_MUL => impl_OP_MUL
  | .CASE_OP_DIV => impl_OP_DIV
  | .CASE_OP_HALT => impl_OP_HALT

/-- The function `exec_goto_interp`: each round is one `DISPATCH()` followed by the
code at the label it jumps to. -/
def exec_goto_interp (insns : List Instruction) : Nat → MachineState → Outcome
  | 0, state => if !should_run state then .done state else .outOfFuel
  | fuel + 1, state =>
    if !should_run state then .done state
    else
      match fetch insns state.pc with
      | .error f => .fault f
      | .ok insn =>
        match goto_dispatch_tbl[insn.op]? with
        | none => .fault .opOutOfRange
        | some label =>
          match goto_case label state insn with
          | .error f => .fault f
          | .ok state => exec_goto_interp insns fuel state

/-- Body shared by the handlers `exec_tail_OP_*`: run the opcode's `impl_`
function, then tail-call `dispatch` (which is `exec_tail_dispatch`). -/
def exec_tail_OP (impl : MachineState → Instruction → Res MachineState)
    (dispatch : MachineState → Option Instruction → Outcome)
    (state : MachineState) (insn : Instruction) : Outcome :=
  match impl state insn with
  | .error f => .fault f
  | .ok state => dispatch state (some insn)

def exec_tail_OP_ADD := exec_tail_OP impl_OP_ADD

def exec_tail_OP_SUB := exec_tail_OP impl_OP_SUB

def exec_tail_OP_MUL := exec_tail_OP impl_OP_MUL

def exec_tail_OP_DIV := exec_tail_OP impl_OP_DIV

def exec_tail_OP_HALT := exec_tail_OP impl_OP_HALT

/-- The table `tail_dispatch_tbl`, indexed by opcode. -/
def tail_dispatch_tbl (dispatch : MachineState → Option Instruction → Outcome) :
    List (MachineState → Instruction → Outcome) :=
  [exec_tail_OP_ADD dispatch, exec_tail_OP_SUB dispatch, exec_tail_OP_MUL dispatch,
   exec_tail_OP_DIV dispatch, exec_tail_OP_HALT dispatch]

/-- The function `exec_tail_dispatch`; the instruction pointer it is passed is
overwritten before use. -/
def exec_tail_dispatch (insns : List Instruction) :
    Nat → MachineState → Option Instruction → Outcome
  | 0, state, _ => if !should_run state then .done state else .outOfFuel
  | fuel + 1, state, _ =>
    if !should_run state then .done state
    else
      match fetch insns state.pc with
      | .error f => .fault f
      | .ok insn =>
        match (tail_dispatch_tbl (exec_tail_dispatch insns fuel))[insn.op]? with
        | none => .fault .opOutOfRange
        | some handler => handler state insn

/-- The function `exec_tail_interp`: `exec_tail_dispatch(state, NULL)`. -/
def exec_tail_interp (insns : List Instruction) (fuel : Nat) (state : MachineState) :
    Outcome :=
  exec_tail_dispatch insns fuel state none


/-! ## Closed forms used in the proofs, and the independent replay -/

/-- Value a register index reads in a state (0 when the index is out of range). -/
def src_value (state : MachineState) (r : Nat) : Int :=
  match getReg state r with
  | .ok v => v
  | .error _ => 0

/-- Value an arithmetic opcode computes from its source value and immediate. -/
def arith (op : Nat) (src : Int) (imm : Nat) : Int :=
  if op = OP_ADD then wrap32 (src + imm)
  else if op = OP_SUB then wrap32 (src - imm)
  else if op = OP_MUL then wrap32 (src * imm)
  else Int.tdiv src imm

/-- Effect of an arithmetic instruction whose destination is `REG_ACC`. -/
def body_step (state : MachineState) (insn : Instruction) : MachineState :=
  ⟨wrap32 (state.pc + 1), state.flags, arith insn.op (src_value state insn.args1) insn.args2⟩

/-- Effect of a sequence of arithmetic instructions whose destination is `REG_ACC`. -/
def body_run (state : MachineState) (body : List Instruction) : MachineState :=
  body.foldl body_step state

/-- An arithmetic instruction that writes `REG_ACC`, reads a valid register and
does not divide by zero. -/
def acc_dest_arith (insn : Instruction) : Prop :=
  insn.op < OP_HALT ∧ insn.args0 = REG_ACC ∧ insn.args1 < REG__COUNT ∧
    (insn.op = OP_DIV → insn.args2 ≠ 0)

/-- State in which a straight-line program halts. -/
def final_state (body : List Instruction) : MachineState :=
  advance_pc { body_run MachineState.zero body with
    flags := Int.lor (body_run MachineState.zero body).flags FLAG_HALTED }

/-- Instruction that `init_insns` writes to slot `i` of a buffer of `n` slots. -/
def slot (gen : Nat → Nat → Nat) (n i : Nat) : Instruction :=
  if i = n - 1 then ⟨OP_HALT, REG_ACC, REG_ACC, 0⟩
  else
    ⟨gen 1337 (2 * i) % 4, REG_ACC, REG_ACC,
      if gen 1337 (2 * i) % 4 = OP_DIV ∧ gen 1337 (2 * i + 1) % 10 = 0 then 1
      else gen 1337 (2 * i + 1) % 10⟩

/-- One step of the replay, in the specification's words: the accumulator
becomes `acc + imm`, `acc - imm`, `acc * imm` or `acc / imm` in 32-bit `int`
arithmetic, according to the opcode. -/
def replay_step (acc : Int) (insn : Instruction) : Int :=
  if insn.op = OP_ADD then wrap32 (acc + insn.args2)
  else if insn.op = OP_SUB then wrap32 (acc - insn.args2)
  else if insn.op = OP_MUL then wrap32 (acc * insn.args2)
  else if insn.op = OP_DIV then Int.tdiv acc insn.args2
  else acc

/-- Independent replay: the left fold of `replay_step` from 0 over the
instructions before the final HALT. -/
def replay (body : List Instruction) : Int :=
  body.foldl replay_step 0

/-! ## Benchmark harness -/

abbrev NUM_ITERATIONS : Nat := 1000

/-- The comparator `compare_ints`: `*(int*)a - *(int*)b`, an `int` subtraction. -/
def compare_ints (a b : Int) : Int := wrap32 (a - b)

/-- The C library's `qsort` on an array of `int`, as an insertion sort that keeps
`a` before `b` when `compar a b ≤ 0`. -/
def qsort (base : List Int) (compar : Int → Int → Int) : List Int :=
  base.insertionSort (fun a b => compar a b ≤ 0)

/-- The struct `timespec` filled by `clock_gettime`. -/
structure timespec where
  tv_sec : Nat
  tv_nsec : Nat
deriving DecidableEq, Repr

/-- The conversion `(uint64_t)t.tv_sec * (uint64_t)1000000000 + t.tv_nsec`. -/
def to_ns (t : timespec) : Nat :=
  (t.tv_sec * 1000000000 + t.tv_nsec) % 18446744073709551616

/-- The sample `(end_ns - start_ns) / 1000`: an unsigned 64-bit difference and
quotient, stored into an `int`. -/
def elapsed_us (start_ns end_ns : Nat) : Int :=
  wrap32 (((end_ns + 18446744073709551616 - start_ns) % 18446744073709551616 / 1000 : Nat))

/-- A row of the table `methods`.  `handler k state` is the state the `k`-th call
of the function leaves in `*state`, or `none` when that call does not return. -/
structure Method where
  name : String
  handler : Nat → MachineState → Option MachineState

/-- The figures `main` prints for one method. -/
structure Stats where
  min : Int
  max : Int
  avg : Int
  med : Int
deriving DecidableEq, Repr

/-- How a part of `main` ends: normally, in a failed `assert`, or not at all. -/
inductive Harness (α : Type) where
  | ok (a : α)
  | assertion_failed
  | no_return
deriving DecidableEq, Repr

/-- The inner loop of `main` over `iter`, for one method: `todo` iterations
remain, `ticks` counts the calls of `clock_gettime` made so far (`clock k` is
what the `k`-th call returns) and `size` is `ARRAY_SIZE(insns)`.  The array
`samples` is filled from index 0 upward. -/
def iterations (clock : Nat → timespec) (size : Nat)
    (handler : Nat → MachineState → Option MachineState) :
    Nat → Nat → Nat → Int → List Int → Int → Harness (Nat × List Int × Int)
  | 0, _, ticks, _, samples, sum => .ok (ticks, samples, sum)
  | todo + 1, iter, ticks, result, samples, sum =>
    let start := clock ticks
    match handler iter MachineState.zero with
    | none => .no_return
    | some state =>
      let end_ := clock (ticks + 1)
      if iter ≠ 0 ∧ result ≠ state.acc then .assertion_failed
      else
        let result := if iter = 0 then state.acc else result
        if state.pc % 18446744073709551616 ≠ (size : Int) then .assertion_failed
        else if Int.land state.flags FLAG_HALTED = 0 then .assertion_failed
        else
          let start_ns := to_ns start
          let end_ns := to_ns end_
          let sample := elapsed_us start_ns end_ns
          iterations clock size handler todo (iter + 1) (ticks + 2) result
            (samples ++ [sample]) (wrap32 (sum + sample))

/-- The statistics block of `main`: sort the samples, then take `samples[0]`,
`samples[ARRAY_SIZE(samples) - 1]`, `sum / ARRAY_SIZE(samples)` (an unsigned
64-bit division stored into an `int`) and `samples[ARRAY_SIZE(samples) / 2]`. -/
def report (samples : List Int) (sum : Int) : Stats :=
  let samples := qsort samples compare_ints
  { min := samples.getD 0 0
    max := samples.getD (NUM_ITERATIONS - 1) 0
    avg := wrap32 (sum % 18446744073709551616 / (NUM_ITERATIONS : Int))
    med := samples.getD (NUM_ITERATIONS / 2) 0 }

/-- One round of the outer loop of `main`: the iterations of one method and its
statistics.  The variables `samples`, `sum` and `result` are local to the
round. -/
def run_method (clock : Nat → timespec) (size : Nat) (method : Method) (ticks : Nat) :
    Harness (Nat × Stats) :=
  match iterations clock size method.handler NUM_ITERATIONS 0 ticks 0 [] 0 with
  | .ok (ticks, samples, sum) => .ok (ticks, report samples sum)
  | .assertion_failed => .assertion_failed
  | .no_return => .no_return

/-- The outer loop of `main` over the table of methods; the result lists, per
method, its name and the figures printed. -/
def main_loop (clock : Nat → timespec) (size : Nat) :
    List Method → Nat → Harness (List (String × Stats))
  | [], _ => .ok []
  | method :: rest, ticks =>
    match run_method clock size method ticks with
    | .ok (ticks, stats) =>
      match main_loop clock size rest ticks with
      | .ok out => .ok ((method.name, stats) :: out)
      | .assertion_failed => .assertion_failed
      | .no_return => .no_return
    | .assertion_failed => .assertion_failed
    | .no_return => .no_return

/-- What a call of an engine leaves in `*state`, when it returns within the
fuel. -/
def returned : Outcome → Option MachineState
  | .done state => some state
  | .fault _ => none
  | .outOfFuel => none

/-- The table `methods`, over the buffer `insns`. -/
def methods (insns : List Instruction) (fuel : Nat) : List Method :=
  [⟨"switch", fun _ state => returned (exec_switch_interp insns fuel state)⟩,
   ⟨"goto", fun _ state => returned (exec_goto_interp insns fuel state)⟩,
   ⟨"tail", fun _ state => returned (exec_tail_interp insns fuel state)⟩]

/-- The function `main`. -/
def main (gen : Nat → Nat → Nat) (clock : Nat → timespec) (fuel : Nat) (r : RandState)
    (insns : List Instruction) : Harness (List (String × Stats)) :=
  match validate_insns (init_insns gen r insns).2 with
  | none => .assertion_failed
  | some _ =>
    main_loop clock (init_insns gen r insns).2.length
      (methods (init_insns gen r insns).2 fuel) 0

/-- The value of `sum` after the inner loop has stored the samples: the fold of
`sum += samples[iter]`. -/
def sum_samples (samples : List Int) : Int :=
  samples.foldl (fun sum sample => wrap32 (sum + sample)) 0

/-! ## Basic facts about the validator, the fetch and halted states -/

theorem validate_insn_iff (insn : Instruction) :
    validate_insn insn = some () ↔
      insn.op < OP__COUNT ∧ insn.args0 < REG__COUNT ∧ insn.args1 < REG__COUNT := by
  unfold validate_insn assert
  by_cases h0 : insn.op < OP__COUNT <;> by_cases h1 : insn.args0 < REG__COUNT <;>
    by_cases h2 : insn.args1 < REG__COUNT <;> simp [h0, h1, h2, Option.bind]

theorem validate_insns_iff (insns : List Instruction) :
    validate_insns insns = some () ↔ ∀ insn ∈ insns, validate_insn insn = some () := by
  induction insns with
  | nil => simp [validate_insns]
  | cons a rest ih =>
    unfold validate_insns
    cases h : validate_insn a with
    | none => simp [Option.bind, h]
    | some u => simp [Option.bind, h, ih]

theorem fetch_ok_mem {insns : List Instruction} {pc : Int} {insn : Instruction}
    (h : fetch insns pc = .ok insn) : insn ∈ insns := by
  unfold fetch at h
  split at h
  · split at h
    · rename_i i hi
      cases h
      exact List.getElem?_mem hi
    · cases h
  · cases h

theorem fetch_ofNat {insns : List Instruction} {k : Nat} {insn : Instruction}
    (h : insns[k]? = some insn) : fetch insns (k : Int) = .ok insn := by
  unfold fetch
  simp [h]

theorem exec_switch_interp_halted (insns : List Instruction) (fuel : Nat)
    (state : MachineState) (h : should_run state = false) :
    exec_switch_interp insns fuel state = .done state := by
  cases fuel <;> simp [exec_switch_interp, h]

theorem exec_goto_interp_halted (insns : List Instruction) (fuel : Nat)
    (state : MachineState) (h : should_run state = false) :
    exec_goto_interp insns fuel state = .done state := by
  cases fuel <;> simp [exec_goto_interp, h]

theorem exec_tail_dispatch_halted (insns : List Instruction) (fuel : Nat)
    (state : MachineState) (insn : Option Instruction) (h : should_run state = false) :
    exec_tail_dispatch insns fuel state insn = .done state := by
  cases fuel <;> simp [exec_tail_dispatch, h]

/-! ## The three engines agree on programs with valid opcodes -/

theorem switch_eq_goto (insns : List Instruction)
    (hop : ∀ insn ∈ insns, insn.op < OP__COUNT) (fuel : Nat) :
    ∀ state, exec_switch_interp insns fuel state = exec_goto_interp insns fuel state := by
  induction fuel with
  | zero =>
    intro state
    cases h : should_run state <;> simp [exec_switch_interp, exec_goto_interp, h]
  | succ fuel ih =>
    intro state
    unfold exec_switch_interp exec_goto_interp
    cases h : should_run state
    · simp
    · simp only [if_true, Bool.not_true, Bool.false_eq_true, if_false]
      cases hf : fetch insns state.pc with
      | error f => rfl
      | ok insn =>
        have hlt := hop insn (fetch_ok_mem hf)
        have hcases : insn.op = 0 ∨ insn.op = 1 ∨ insn.op = 2 ∨ insn.op = 3 ∨ insn.op = 4 := by
          simp only [OP__COUNT] at hlt; omega
        rcases hcases with h0 | h0 | h0 | h0 | h0 <;>
          simp only [h0, goto_dispatch_tbl, goto_case, OP_ADD, OP_SUB, OP_MUL, OP_DIV, OP_HALT] <;>
          simp [ih]

theorem goto_eq_tail (insns : List Instruction) (fuel : Nat) :
    ∀ state insn0,
      exec_goto_interp insns fuel state = exec_tail_dispatch insns fuel state insn0 := by
  induction fuel with
  | zero =>
    intro state insn0
    simp [exec_goto_interp, exec_tail_dispatch]
  | succ fuel ih =>
    intro state insn0
    unfold exec_goto_interp exec_tail_dispatch
    cases h : should_run state
    · simp
    · simp only [Bool.not_true, Bool.false_eq_true, if_false]
      cases hf : fetch insns state.pc with
      | error f => rfl
      | ok insn =>
        simp only
        by_cases hlt : insn.op < 5
        · have hcases : insn.op = 0 ∨ insn.op = 1 ∨ insn.op = 2 ∨ insn.op = 3 ∨ insn.op = 4 := by
            omega
          rcases hcases with h0 | h0 | h0 | h0 | h0 <;>
            simp only [h0, goto_dispatch_tbl, tail_dispatch_tbl, goto_case, exec_tail_OP,
              exec_tail_OP_ADD, exec_tail_OP_SUB, exec_tail_OP_MUL, exec_tail_OP_DIV,
              exec_tail_OP_HALT, List.getElem?_cons_zero, List.getElem?_cons_succ] <;>
            split <;> first | rfl | exact ih _ _
        · have h1 : goto_dispatch_tbl[insn.op]? = none := by
            apply List.getElem?_eq_none
            simp [goto_dispatch_tbl]; omega
          have h2 : (tail_dispatch_tbl (exec_tail_dispatch insns fuel))[insn.op]? = none := by
            apply List.getElem?_eq_none
            simp [tail_dispatch_tbl]; omega
          rw [h1, h2]

theorem engines_agree (insns : List Instruction)
    (hop : ∀ insn ∈ insns, insn.op < OP__COUNT) (fuel : Nat) (state : MachineState) :
    exec_goto_interp insns fuel state = exec_switch_interp insns fuel state ∧
    exec_tail_interp insns fuel state = exec_switch_interp insns fuel state := by
  refine ⟨(switch_eq_goto insns hop fuel state).symm, ?_⟩
  unfold exec_tail_interp
  rw [← goto_eq_tail, switch_eq_goto insns hop]


/-! ## Straight-line runs -/

theorem wrap32_of_range {x : Int} (h1 : INT_MIN ≤ x) (h2 : x ≤ INT_MAX) : wrap32 x = x := by
  unfold wrap32
  simp only [INT_MIN, INT_MAX] at h1 h2
  omega

theorem wrap32_range (x : Int) : INT_MIN ≤ wrap32 x ∧ wrap32 x ≤ INT_MAX := by
  unfold wrap32
  simp only [INT_MIN, INT_MAX]
  omega

theorem getReg_ok_src_value (state : MachineState) {r : Nat} (h : r < REG__COUNT) :
    getReg state r = .ok (src_value state r) := by
  have hr : r = 0 ∨ r = 1 ∨ r = 2 := by simp only [REG__COUNT] at h; omega
  rcases hr with h0 | h0 | h0 <;> subst h0 <;> simp [src_value, getReg]

theorem switch_dispatch_body (state : MachineState) (insn : Instruction)
    (h : acc_dest_arith insn) :
    (if insn.op = OP_ADD then impl_OP_ADD state insn
      else if insn.op = OP_SUB then impl_OP_SUB state insn
      else if insn.op = OP_MUL then impl_OP_MUL state insn
      else if insn.op = OP_DIV then impl_OP_DIV state insn
      else if insn.op = OP_HALT then impl_OP_HALT state insn
      else .ok state) = .ok (body_step state insn) := by
  obtain ⟨hop, hd, hs, hz⟩ := h
  have hcases : insn.op = 0 ∨ insn.op = 1 ∨ insn.op = 2 ∨ insn.op = 3 := by
    simp only [OP_HALT] at hop; omega
  have hsrc := getReg_ok_src_value state hs
  rcases hcases with h0 | h0 | h0 | h0
  · simp [h0, impl_OP_ADD, hsrc, hd, Res.bind, setReg, advance_pc, body_step, arith]
  · simp [h0, impl_OP_SUB, hsrc, hd, Res.bind, setReg, advance_pc, body_step, arith]
  · simp [h0, impl_OP_MUL, hsrc, hd, Res.bind, setReg, advance_pc, body_step, arith]
  · have hz0 : insn.args2 ≠ 0 := hz h0
    simp [h0, impl_OP_DIV, hsrc, hd, hz0, Res.bind, setReg, advance_pc, body_step, arith]

theorem body_run_pc_flags (body : List Instruction) :
    ∀ (state : MachineState), 0 ≤ state.pc → state.pc + body.length ≤ INT_MAX →
      (body_run state body).pc = state.pc + body.length ∧
      (body_run state body).flags = state.flags := by
  induction body with
  | nil => intro state _ _; simp [body_run]
  | cons a rest ih =>
    intro state h0 h1
    simp only [List.length_cons, Nat.cast_add, Nat.cast_one] at h1
    have hw : wrap32 (state.pc + 1) = state.pc + 1 :=
      wrap32_of_range (by simp only [INT_MIN]; omega) (by omega)
    have := ih (body_step state a) (by simp only [body_step, hw]; omega)
      (by simp only [body_step, hw]; omega)
    simp only [body_run, List.foldl_cons, List.length_cons, Nat.cast_add, Nat.cast_one]
    simp only [body_run, body_step, hw] at this
    simp only [body_step, hw]
    constructor
    · rw [this.1]; ring
    · exact this.2

theorem switch_run_suffix (last : Instruction) (hlast : last.op = OP_HALT)
    (rest : List Instruction) :
    ∀ (pre : List Instruction) (state : MachineState) (fuel : Nat),
      (∀ insn ∈ rest, acc_dest_arith insn) →
      state.pc = pre.length → state.flags = 0 →
      ((pre ++ rest ++ [last]).length : Int) ≤ INT_MAX →
      exec_switch_interp (pre ++ rest ++ [last]) fuel state =
        if rest.length + 1 ≤ fuel then
          .done (advance_pc { body_run state rest with
            flags := Int.lor (body_run state rest).flags FLAG_HALTED })
        else .outOfFuel := by
  induction rest with
  | nil =>
    intro pre state fuel _ hpc hfl hlen
    have hrun : should_run state = true := by simp [should_run, hfl]; decide
    cases fuel with
    | zero => simp [exec_switch_interp, hrun]
    | succ fuel =>
      have hf : fetch (pre ++ [] ++ [last]) state.pc = .ok last := by
        rw [hpc]; apply fetch_ofNat; simp
      unfold exec_switch_interp
      simp only [hrun, if_true, hf, hlast, body_run, List.foldl_nil, List.length_nil]
      simp only [OP_HALT, OP_ADD, OP_SUB, OP_MUL, OP_DIV, impl_OP_HALT]
      simp only [Nat.reduceEqDiff, if_false, if_true]
      rw [exec_switch_interp_halted]
      · simp
      · simp [should_run, advance_pc, hfl]; decide
  | cons a rest ih =>
    intro pre state fuel hgood hpc hfl hlen
    have hrun : should_run state = true := by simp [should_run, hfl]; decide
    cases fuel with
    | zero => simp [exec_switch_interp, hrun]
    | succ fuel =>
      have hf : fetch (pre ++ a :: rest ++ [last]) state.pc = .ok a := by
        rw [hpc]; apply fetch_ofNat
        rw [List.append_assoc, List.getElem?_append_right (Nat.le_refl _)]
        simp
      have ha := hgood a (List.mem_cons_self a rest)
      have hlen2 : (pre.length : Int) + 1 + rest.length + 1 ≤ INT_MAX := by
        simp only [List.length_append, List.length_cons, List.length_nil, Nat.cast_add,
          Nat.cast_one] at hlen
        omega
      have hw : wrap32 (state.pc + 1) = state.pc + 1 :=
        wrap32_of_range (by rw [hpc]; simp only [INT_MIN]; omega) (by rw [hpc]; omega)
      unfold exec_switch_interp
      simp only [hrun, if_true, hf, switch_dispatch_body state a ha]
      have key := ih (pre ++ [a]) (body_step state a) fuel
        (fun insn hin => hgood insn (List.mem_cons_of_mem a hin))
        (by show wrap32 (state.pc + 1) = _
            rw [hw, hpc]; simp)
        (by simp [body_step, hfl])
        (by simpa using hlen)
      have hre : pre ++ [a] ++ rest ++ [last] = pre ++ a :: rest ++ [last] := by simp
      rw [hre] at key
      rw [key]
      simp [body_run]

theorem switch_run (body : List Instruction) (last : Instruction)
    (hlast : last.op = OP_HALT) (hbody : ∀ insn ∈ body, acc_dest_arith insn)
    (hlen : ((body ++ [last]).length : Int) ≤ INT_MAX) (fuel : Nat) :
    exec_switch_interp (body ++ [last]) fuel MachineState.zero =
      if (body ++ [last]).length ≤ fuel then .done (final_state body) else .outOfFuel := by
  have := switch_run_suffix last hlast body [] MachineState.zero fuel hbody
    (by simp [MachineState.zero]) (by simp [MachineState.zero]) (by simpa using hlen)
  simpa [final_state] using this

theorem final_state_pc_flags (body : List Instruction) (last : Instruction)
    (hlen : ((body ++ [last]).length : Int) ≤ INT_MAX) :
    (final_state body).pc = (body ++ [last]).length ∧
    (final_state body).flags = FLAG_HALTED ∧
    (final_state body).acc = (body_run MachineState.zero body).acc := by
  simp only [List.length_append, List.length_cons, List.length_nil, Nat.cast_add,
    Nat.cast_one, zero_add] at hlen
  have h := body_run_pc_flags body MachineState.zero (by simp [MachineState.zero])
    (by simp only [MachineState.zero]; omega)
  simp only [MachineState.zero, zero_add] at h
  have hw : wrap32 ((body.length : Int) + 1) = body.length + 1 :=
    wrap32_of_range (by simp only [INT_MIN]; omega) (by omega)
  refine ⟨?_, ?_, ?_⟩
  · simp [final_state, advance_pc, MachineState.zero, h.1, hw]
  · simp [final_state, advance_pc, MachineState.zero, h.2]; decide
  · simp [final_state, advance_pc]


/-! ## Closed form of the generated program -/

theorem init_insns_loop_spec (gen : Nat → Nat → Nat) (todo : Nat) :
    ∀ (i : Nat) (r : RandState) (insns : List Instruction),
      i + todo = insns.length → (1 ≤ todo → r = ⟨1337, 2 * i⟩) →
      (init_insns_loop gen todo i r insns).2.length = insns.length ∧
      ∀ j, (init_insns_loop gen todo i r insns).2[j]? =
        if j < i then insns[j]?
        else if j < insns.length then some (slot gen insns.length j) else none := by
  induction todo with
  | zero =>
    intro i r insns hi _
    refine ⟨rfl, fun j => ?_⟩
    simp only [init_insns_loop]
    by_cases hj : j < i
    · simp [hj]
    · have : ¬ j < insns.length := by omega
      simp only [hj, this, if_false]
      apply List.getElem?_eq_none
      omega
  | succ todo ih =>
    intro i r insns hi hr
    have hr0 := hr (by omega)
    unfold init_insns_loop
    by_cases hlast : i = insns.length - 1
    · simp only [hlast, if_true]
      have htodo : todo = 0 := by omega
      subst htodo
      simp only [init_insns_loop, List.length_set, true_and]
      intro j
      by_cases hj : j < insns.length - 1
      · have hne : insns.length - 1 ≠ j := by omega
        simp [hj, List.getElem?_set_ne hne]
      · by_cases hj2 : j = insns.length - 1
        · have hlt : j < insns.length := by omega
          subst hj2
          simp [hlt, slot, List.getElem?_set_self, OP_HALT]
        · have : ¬ j < insns.length := by omega
          simp only [hj, this, if_false]
          apply List.getElem?_eq_none
          simp only [List.length_set]; omega
    · simp only [hlast, if_false, hr0, rand]
      have hop : gen 1337 (2 * i) % (OP__COUNT - 1) % 256 = gen 1337 (2 * i) % 4 := by
        simp only [OP__COUNT]; omega
      have hval : (if gen 1337 (2 * i) % (OP__COUNT - 1) = OP_DIV ∧
            gen 1337 (2 * i + 1) % 10 = 0 then 1 else gen 1337 (2 * i + 1) % 10) % 256 =
          (if gen 1337 (2 * i) % 4 = OP_DIV ∧ gen 1337 (2 * i + 1) % 10 = 0 then 1
            else gen 1337 (2 * i + 1) % 10) := by
        simp only [OP__COUNT]
        split <;> omega
      have key := ih (i + 1) ⟨1337, 2 * i + 1 + 1⟩
        (insns.set i ⟨gen 1337 (2 * i) % (OP__COUNT - 1) % 256, REG_ACC, REG_ACC,
          (if gen 1337 (2 * i) % (OP__COUNT - 1) = OP_DIV ∧
            gen 1337 (2 * i + 1) % 10 = 0 then 1 else gen 1337 (2 * i + 1) % 10) % 256⟩)
        (by simp only [List.length_set]; omega)
        (fun _ => by congr 1)
      simp only [List.length_set] at key
      refine ⟨key.1, fun j => ?_⟩
      rw [key.2 j]
      by_cases hj : j < i
      · have hne : i ≠ j := by omega
        have hj1 : j < i + 1 := by omega
        simp [hj, hj1, List.getElem?_set_ne hne]
      · by_cases hj2 : j = i
        · subst hj2
          have hlt : j < insns.length := by omega
          rw [hop, hval]
          simp [hlt, slot, hlast, List.getElem?_set_self]
        · have hj1 : ¬ j < i + 1 := by omega
          simp [hj, hj1]

theorem init_insns_length (gen : Nat → Nat → Nat) (r : RandState) (insns : List Instruction) :
    (init_insns gen r insns).2.length = insns.length :=
  (init_insns_loop_spec gen insns.length 0 (srand 1337) insns (by simp)
    (fun _ => rfl)).1

theorem init_insns_getElem? (gen : Nat → Nat → Nat) (r : RandState) (insns : List Instruction)
    (j : Nat) :
    (init_insns gen r insns).2[j]? =
      if j < insns.length then some (slot gen insns.length j) else none := by
  have := (init_insns_loop_spec gen insns.length 0 (srand 1337) insns (by simp)
    (fun _ => rfl)).2 j
  simpa [init_insns] using this

theorem init_insns_eq (gen : Nat → Nat → Nat) (r : RandState) (insns : List Instruction)
    (hn : 1 ≤ insns.length) :
    (init_insns gen r insns).2 =
      (List.range (insns.length - 1)).map (slot gen insns.length) ++
        [⟨OP_HALT, REG_ACC, REG_ACC, 0⟩] := by
  apply List.ext_getElem?
  intro j
  rw [init_insns_getElem?]
  by_cases hj : j < insns.length - 1
  · have hj1 : j < insns.length := by omega
    rw [List.getElem?_append_left (by simpa using hj)]
    simp [hj, hj1]
  · rw [List.getElem?_append_right (by simpa using hj)]
    simp only [List.length_map, List.length_range]
    by_cases hj2 : j = insns.length - 1
    · have hj1 : j < insns.length := by omega
      subst hj2
      simp only [hj1, slot, if_true, Nat.sub_self, List.getElem?_cons_zero]
    · have hj1 : ¬ j < insns.length := by omega
      have : j - (insns.length - 1) ≠ 0 := by omega
      simp only [hj1, if_false]
      symm
      apply List.getElem?_eq_none
      simp; omega

theorem slot_body (gen : Nat → Nat → Nat) (n i : Nat) (hi : i < n - 1) :
    (slot gen n i).op < OP_HALT ∧ (slot gen n i).args0 = REG_ACC ∧
    (slot gen n i).args1 = REG_ACC ∧ (slot gen n i).args2 < 10 ∧
    ((slot gen n i).op = OP_DIV → (slot gen n i).args2 ≠ 0) := by
  have hne : i ≠ n - 1 := by omega
  simp only [slot, hne, if_false, OP_HALT, OP_DIV]
  refine ⟨by omega, trivial, trivial, ?_, ?_⟩
  · split <;> omega
  · intro h
    split
    · omega
    · rename_i hc
      intro h0
      exact hc ⟨h, h0⟩


/-! ## Runs of straight-line and of generated programs on all three engines -/

theorem straight_line_run (body : List Instruction) (last : Instruction)
    (hlast : last.op = OP_HALT) (hbody : ∀ insn ∈ body, acc_dest_arith insn)
    (hlen : ((body ++ [last]).length : Int) ≤ INT_MAX) (fuel : Nat) :
    exec_switch_interp (body ++ [last]) fuel MachineState.zero =
      (if (body ++ [last]).length ≤ fuel then .done (final_state body) else .outOfFuel) ∧
    exec_goto_interp (body ++ [last]) fuel MachineState.zero =
      (if (body ++ [last]).length ≤ fuel then .done (final_state body) else .outOfFuel) ∧
    exec_tail_interp (body ++ [last]) fuel MachineState.zero =
      (if (body ++ [last]).length ≤ fuel then .done (final_state body) else .outOfFuel) := by
  have hop : ∀ insn ∈ body ++ [last], insn.op < OP__COUNT := by
    intro insn hin
    rcases List.mem_append.mp hin with h | h
    · have := (hbody insn h).1
      simp only [OP_HALT] at this
      simp only [OP__COUNT]; omega
    · rw [List.mem_singleton] at h
      rw [h, hlast]
      decide
  have hsw := switch_run body last hlast hbody hlen fuel
  have hag := engines_agree (body ++ [last]) hop fuel MachineState.zero
  exact ⟨hsw, hag.1.trans hsw, hag.2.trans hsw⟩

theorem generated_body (gen : Nat → Nat → Nat) (n : Nat) :
    ∀ insn ∈ (List.range (n - 1)).map (slot gen n), acc_dest_arith insn := by
  intro insn hin
  obtain ⟨i, hi, rfl⟩ := List.mem_map.mp hin
  have h := slot_body gen n i (List.mem_range.mp hi)
  refine ⟨h.1, h.2.1, ?_, h.2.2.2.2⟩
  rw [h.2.2.1]
  decide

theorem generated_run (gen : Nat → Nat → Nat) (r : RandState) (insns : List Instruction)
    (hn : 1 ≤ insns.length) (hmax : (insns.length : Int) ≤ INT_MAX) (fuel : Nat) :
    exec_switch_interp (init_insns gen r insns).2 fuel MachineState.zero =
      (if insns.length ≤ fuel then
        .done (final_state ((List.range (insns.length - 1)).map (slot gen insns.length)))
       else .outOfFuel) ∧
    exec_goto_interp (init_insns gen r insns).2 fuel MachineState.zero =
      (if insns.length ≤ fuel then
        .done (final_state ((List.range (insns.length - 1)).map (slot gen insns.length)))
       else .outOfFuel) ∧
    exec_tail_interp (init_insns gen r insns).2 fuel MachineState.zero =
      (if insns.length ≤ fuel then
        .done (final_state ((List.range (insns.length - 1)).map (slot gen insns.length)))
       else .outOfFuel) := by
  have hlen : ((List.range (insns.length - 1)).map (slot gen insns.length) ++
      [(⟨OP_HALT, REG_ACC, REG_ACC, 0⟩ : Instruction)]).length = insns.length := by
    simp; omega
  have h := straight_line_run ((List.range (insns.length - 1)).map (slot gen insns.length))
    ⟨OP_HALT, REG_ACC, REG_ACC, 0⟩ rfl (generated_body gen insns.length)
    (by rw [hlen]; exact hmax) fuel
  rw [hlen, ← init_insns_eq gen r insns hn] at h
  exact h

theorem generated_final_state (gen : Nat → Nat → Nat) (n : Nat)
    (hn : 1 ≤ n) (hmax : (n : Int) ≤ INT_MAX) :
    (final_state ((List.range (n - 1)).map (slot gen n))).pc = n ∧
    (final_state ((List.range (n - 1)).map (slot gen n))).flags = FLAG_HALTED := by
  have h := final_state_pc_flags ((List.range (n - 1)).map (slot gen n))
    ⟨OP_HALT, REG_ACC, REG_ACC, 0⟩
    (by simp only [List.length_append, List.length_map, List.length_range,
          List.length_singleton]
        rw [Nat.sub_add_cancel hn]; exact hmax)
  simp only [List.length_append, List.length_map, List.length_range,
    List.length_singleton, Nat.sub_add_cancel hn] at h
  exact ⟨h.1, h.2.1⟩

theorem body_run_acc (body : List Instruction) :
    ∀ state : MachineState,
      (∀ insn ∈ body, insn.op < OP_HALT ∧ insn.args1 = REG_ACC) →
      (body_run state body).acc = body.foldl replay_step state.acc := by
  induction body with
  | nil => intro state _; rfl
  | cons a rest ih =>
    intro state h
    have ha := h a (List.mem_cons_self a rest)
    have hstep : (body_step state a).acc = replay_step state.acc a := by
      have hcases : a.op = 0 ∨ a.op = 1 ∨ a.op = 2 ∨ a.op = 3 := by
        have := ha.1
        simp only [OP_HALT] at this; omega
      rcases hcases with h0 | h0 | h0 | h0 <;>
        simp [body_step, replay_step, arith, src_value, getReg, ha.2, h0]
    simp only [body_run, List.foldl_cons]
    have := ih (body_step state a) (fun insn hin => h insn (List.mem_cons_of_mem a hin))
    simp only [body_run] at this
    rw [this, hstep]


/-! ## Claims about the engines -/

/-- C1 (cross-engine equivalence): for every program whose instructions all
pass `validate_insn`, the three engines started from the all-zero state give the
same outcome for every bound on the number of fetches; so whenever one of them
terminates in a state, the other two terminate in that same state, with equal
`REG_PC`, `REG_FLAGS` and `REG_ACC`. -/
theorem cross_engine_equivalence (insns : List Instruction)
    (hvalid : validate_insns insns = some ()) :
    (∀ fuel, exec_goto_interp insns fuel MachineState.zero =
          exec_switch_interp insns fuel MachineState.zero ∧
        exec_tail_interp insns fuel MachineState.zero =
          exec_switch_interp insns fuel MachineState.zero) ∧
    (∀ s, ((∃ fuel, exec_switch_interp insns fuel MachineState.zero = .done s) ↔
            (∃ fuel, exec_goto_interp insns fuel MachineState.zero = .done s)) ∧
          ((∃ fuel, exec_switch_interp insns fuel MachineState.zero = .done s) ↔
            (∃ fuel, exec_tail_interp insns fuel MachineState.zero = .done s))) := by
  have hop : ∀ insn ∈ insns, insn.op < OP__COUNT := fun insn hin =>
    ((validate_insn_iff insn).mp ((validate_insns_iff insns).mp hvalid insn hin)).1
  have hag := fun fuel => engines_agree insns hop fuel MachineState.zero
  refine ⟨hag, fun s => ⟨⟨?_, ?_⟩, ⟨?_, ?_⟩⟩⟩
  · rintro ⟨fuel, h⟩; exact ⟨fuel, (hag fuel).1.trans h⟩
  · rintro ⟨fuel, h⟩; exact ⟨fuel, (hag fuel).1.symm.trans h⟩
  · rintro ⟨fuel, h⟩; exact ⟨fuel, (hag fuel).2.trans h⟩
  · rintro ⟨fuel, h⟩; exact ⟨fuel, (hag fuel).2.symm.trans h⟩

/-- Witness of C1 at the program `ADD acc, flags, 7; SUB acc, acc, 2; HALT`. -/
theorem cross_engine_equivalence_witness :
    validate_insns [⟨OP_ADD, REG_ACC, REG_FLAGS, 7⟩, ⟨OP_SUB, REG_ACC, REG_ACC, 2⟩,
        ⟨OP_HALT, 0, 0, 0⟩] = some () ∧
    exec_tail_interp [⟨OP_ADD, REG_ACC, REG_FLAGS, 7⟩, ⟨OP_SUB, REG_ACC, REG_ACC, 2⟩,
        ⟨OP_HALT, 0, 0, 0⟩] 3 MachineState.zero =
      exec_switch_interp [⟨OP_ADD, REG_ACC, REG_FLAGS, 7⟩, ⟨OP_SUB, REG_ACC, REG_ACC, 2⟩,
        ⟨OP_HALT, 0, 0, 0⟩] 3 MachineState.zero :=
  ⟨by decide,
   ((cross_engine_equivalence [⟨OP_ADD, REG_ACC, REG_FLAGS, 7⟩, ⟨OP_SUB, REG_ACC, REG_ACC, 2⟩,
        ⟨OP_HALT, 0, 0, 0⟩] (by decide)).1 3).2⟩

/-- C2, counterexample: both programs below pass the validator, end in HALT and
have a non-HALT first instruction.  On `ADD flags, acc, 1; HALT` the ADD sets
the HALTED bit, so every engine stops with `REG_PC = 1`, not 2, and no amount
of fuel makes the switch engine stop with `REG_PC = 2`.  On
`DIV acc, acc, 0; HALT` every engine divides by zero. -/
theorem termination_counterexample :
    (validate_insns [⟨OP_ADD, REG_FLAGS, REG_ACC, 1⟩, ⟨OP_HALT, 0, 0, 0⟩] = some () ∧
      exec_switch_interp [⟨OP_ADD, REG_FLAGS, REG_ACC, 1⟩, ⟨OP_HALT, 0, 0, 0⟩] 2
        MachineState.zero = .done ⟨1, 1, 0⟩ ∧
      exec_goto_interp [⟨OP_ADD, REG_FLAGS, REG_ACC, 1⟩, ⟨OP_HALT, 0, 0, 0⟩] 2
        MachineState.zero = .done ⟨1, 1, 0⟩ ∧
      exec_tail_interp [⟨OP_ADD, REG_FLAGS, REG_ACC, 1⟩, ⟨OP_HALT, 0, 0, 0⟩] 2
        MachineState.zero = .done ⟨1, 1, 0⟩ ∧
      ¬ ∃ fuel s, exec_switch_interp [⟨OP_ADD, REG_FLAGS, REG_ACC, 1⟩, ⟨OP_HALT, 0, 0, 0⟩]
          fuel MachineState.zero = .done s ∧ s.pc = 2) ∧
    (validate_insns [⟨OP_DIV, REG_ACC, REG_ACC, 0⟩, ⟨OP_HALT, 0, 0, 0⟩] = some () ∧
      exec_switch_interp [⟨OP_DIV, REG_ACC, REG_ACC, 0⟩, ⟨OP_HALT, 0, 0, 0⟩] 2
        MachineState.zero = .fault .divByZero ∧
      exec_goto_interp [⟨OP_DIV, REG_ACC, REG_ACC, 0⟩, ⟨OP_HALT, 0, 0, 0⟩] 2
        MachineState.zero = .fault .divByZero ∧
      exec_tail_interp [⟨OP_DIV, REG_ACC, REG_ACC, 0⟩, ⟨OP_HALT, 0, 0, 0⟩] 2
        MachineState.zero = .fault .divByZero) := by
  refine ⟨⟨by decide, by decide, by decide, by decide, ?_⟩, by decide, by decide, by decide,
    by decide⟩
  rintro ⟨fuel, s, h, hpc⟩
  cases fuel with
  | zero =>
    have h0 : exec_switch_interp [⟨OP_ADD, REG_FLAGS, REG_ACC, 1⟩, ⟨OP_HALT, 0, 0, 0⟩]
        0 MachineState.zero = .outOfFuel := by decide
    rw [h0] at h
    cases h
  | succ fuel =>
    have hstep : exec_switch_interp [⟨OP_ADD, REG_FLAGS, REG_ACC, 1⟩, ⟨OP_HALT, 0, 0, 0⟩]
        (fuel + 1) MachineState.zero = .done ⟨1, 1, 0⟩ := by
      have h1 : exec_switch_interp [⟨OP_ADD, REG_FLAGS, REG_ACC, 1⟩, ⟨OP_HALT, 0, 0, 0⟩]
          (fuel + 1) MachineState.zero =
          exec_switch_interp [⟨OP_ADD, REG_FLAGS, REG_ACC, 1⟩, ⟨OP_HALT, 0, 0, 0⟩]
            fuel ⟨1, 1, 0⟩ := by
        rw [exec_switch_interp]
        rfl
      rw [h1, exec_switch_interp_halted _ _ _ (by decide)]
    rw [hstep] at h
    cases h
    simp at hpc

/-- C2, amended (termination correctness): for every program of at most
`INT_MAX` instructions that passes the validator, whose last instruction is HALT
and whose earlier instructions are non-HALT, have destination `REG_ACC` and, when
DIV, a non-zero immediate, every engine started from the all-zero state halts
once the fuel covers the program length, with `REG_PC` equal to the program's
length and the `FLAG_HALTED` bit set in `REG_FLAGS`. -/
theorem termination_correctness (body : List Instruction) (last : Instruction)
    (hvalid : validate_insns (body ++ [last]) = some ())
    (hlast : last.op = OP_HALT)
    (hbody : ∀ insn ∈ body, insn.op ≠ OP_HALT ∧ insn.args0 = REG_ACC ∧
      (insn.op = OP_DIV → insn.args2 ≠ 0))
    (hlen : ((body ++ [last]).length : Int) ≤ INT_MAX) :
    ∃ s : MachineState, s.pc = (body ++ [last]).length ∧
      Int.land s.flags FLAG_HALTED ≠ 0 ∧
      ∀ fuel, (body ++ [last]).length ≤ fuel →
        exec_switch_interp (body ++ [last]) fuel MachineState.zero = .done s ∧
        exec_goto_interp (body ++ [last]) fuel MachineState.zero = .done s ∧
        exec_tail_interp (body ++ [last]) fuel MachineState.zero = .done s := by
  have hgood : ∀ insn ∈ body, acc_dest_arith insn := by
    intro insn hin
    have hv := (validate_insn_iff insn).mp
      ((validate_insns_iff _).mp hvalid insn (List.mem_append_left _ hin))
    obtain ⟨h1, h2, h3⟩ := hbody insn hin
    refine ⟨?_, h2, hv.2.2, h3⟩
    have := hv.1
    simp only [OP__COUNT] at this
    simp only [OP_HALT] at h1 ⊢
    omega
  have hfin := final_state_pc_flags body last hlen
  refine ⟨final_state body, hfin.1, ?_, fun fuel hfuel => ?_⟩
  · rw [hfin.2.1]; decide
  · have h := straight_line_run body last hlast hgood hlen fuel
    simp only [hfuel, if_true] at h
    exact h

/-- Witness of amended C2 at the program `MUL acc, pc, 3; DIV acc, acc, 2; HALT`. -/
theorem termination_correctness_witness :
    validate_insns [⟨OP_MUL, REG_ACC, REG_PC, 3⟩, ⟨OP_DIV, REG_ACC, REG_ACC, 2⟩,
      ⟨OP_HALT, 0, 0, 0⟩] = some () ∧
    ∃ s : MachineState, s.pc = 3 ∧ Int.land s.flags FLAG_HALTED ≠ 0 ∧
      ∀ fuel, 3 ≤ fuel →
        exec_switch_interp [⟨OP_MUL, REG_ACC, REG_PC, 3⟩, ⟨OP_DIV, REG_ACC, REG_ACC, 2⟩,
          ⟨OP_HALT, 0, 0, 0⟩] fuel MachineState.zero = .done s ∧
        exec_goto_interp [⟨OP_MUL, REG_ACC, REG_PC, 3⟩, ⟨OP_DIV, REG_ACC, REG_ACC, 2⟩,
          ⟨OP_HALT, 0, 0, 0⟩] fuel MachineState.zero = .done s ∧
        exec_tail_interp [⟨OP_MUL, REG_ACC, REG_PC, 3⟩, ⟨OP_DIV, REG_ACC, REG_ACC, 2⟩,
          ⟨OP_HALT, 0, 0, 0⟩] fuel MachineState.zero = .done s :=
  ⟨by decide,
   termination_correctness
    [(⟨OP_MUL, REG_ACC, REG_PC, 3⟩ : Instruction), ⟨OP_DIV, REG_ACC, REG_ACC, 2⟩]
    ⟨OP_HALT, 0, 0, 0⟩ (by decide) rfl (by decide) (by decide)⟩


/-- C3 (the harness's terminal-state assertions hold on generated programs): for
every buffer of `n` slots with `1 ≤ n ≤ INT_MAX` and every pseudo-random
stream `gen`, each engine run from the all-zero state on the program built by
`init_insns` stops exactly when the fuel reaches `n` fetches (it is out of fuel
below `n`), in one state with `REG_PC = n` and `REG_FLAGS = FLAG_HALTED`. -/
theorem harness_assertions_hold (gen : Nat → Nat → Nat) (r : RandState)
    (insns : List Instruction) (hn : 1 ≤ insns.length)
    (hmax : (insns.length : Int) ≤ INT_MAX) :
    ∃ s : MachineState, s.pc = insns.length ∧ s.flags = FLAG_HALTED ∧
      ∀ fuel,
        exec_switch_interp (init_insns gen r insns).2 fuel MachineState.zero =
          (if insns.length ≤ fuel then .done s else .outOfFuel) ∧
        exec_goto_interp (init_insns gen r insns).2 fuel MachineState.zero =
          (if insns.length ≤ fuel then .done s else .outOfFuel) ∧
        exec_tail_interp (init_insns gen r insns).2 fuel MachineState.zero =
          (if insns.length ≤ fuel then .done s else .outOfFuel) := by
  have hfin := generated_final_state gen insns.length hn hmax
  exact ⟨_, hfin.1, hfin.2, fun fuel => generated_run gen r insns hn hmax fuel⟩

/-- Witness of C3 on a zeroed buffer of four slots and the stream
`k ↦ 3 * k + 1`. -/
theorem harness_assertions_hold_witness :
    1 ≤ (List.replicate 4 (⟨0, 0, 0, 0⟩ : Instruction)).length ∧
    ((List.replicate 4 (⟨0, 0, 0, 0⟩ : Instruction)).length : Int) ≤ INT_MAX ∧
    ∃ s : MachineState, s.pc = (List.replicate 4 (⟨0, 0, 0, 0⟩ : Instruction)).length ∧
      s.flags = FLAG_HALTED ∧
      ∀ fuel,
        exec_switch_interp (init_insns (fun _ k => 3 * k + 1) ⟨0, 0⟩
            (List.replicate 4 ⟨0, 0, 0, 0⟩)).2 fuel MachineState.zero =
          (if (List.replicate 4 (⟨0, 0, 0, 0⟩ : Instruction)).length ≤ fuel then .done s
            else .outOfFuel) ∧
        exec_goto_interp (init_insns (fun _ k => 3 * k + 1) ⟨0, 0⟩
            (List.replicate 4 ⟨0, 0, 0, 0⟩)).2 fuel MachineState.zero =
          (if (List.replicate 4 (⟨0, 0, 0, 0⟩ : Instruction)).length ≤ fuel then .done s
            else .outOfFuel) ∧
        exec_tail_interp (init_insns (fun _ k => 3 * k + 1) ⟨0, 0⟩
            (List.replicate 4 ⟨0, 0, 0, 0⟩)).2 fuel MachineState.zero =
          (if (List.replicate 4 (⟨0, 0, 0, 0⟩ : Instruction)).length ≤ fuel then .done s
            else .outOfFuel) :=
  ⟨by decide, by decide,
   harness_assertions_hold (fun _ k => 3 * k + 1) ⟨0, 0⟩ (List.replicate 4 ⟨0, 0, 0, 0⟩)
    (by decide) (by decide)⟩

/-- C4 (engine result equals an independent replay): for every program of at
most `INT_MAX` instructions whose last instruction is HALT and whose earlier
instructions are ADD, SUB, MUL or DIV with destination and source `REG_ACC` and,
for DIV, a non-zero immediate, each engine started from the all-zero state
returns a state whose `REG_ACC` is `replay body`, the left fold from 0 of the
32-bit operations over the instructions before the HALT. -/
theorem engine_equals_replay (body : List Instruction) (last : Instruction)
    (hlast : last.op = OP_HALT)
    (hbody : ∀ insn ∈ body,
      (insn.op = OP_ADD ∨ insn.op = OP_SUB ∨ insn.op = OP_MUL ∨ insn.op = OP_DIV) ∧
      insn.args0 = REG_ACC ∧ insn.args1 = REG_ACC ∧ (insn.op = OP_DIV → insn.args2 ≠ 0))
    (hlen : ((body ++ [last]).length : Int) ≤ INT_MAX) :
    ∃ s : MachineState, s.acc = replay body ∧
      ∀ fuel, (body ++ [last]).length ≤ fuel →
        exec_switch_interp (body ++ [last]) fuel MachineState.zero = .done s ∧
        exec_goto_interp (body ++ [last]) fuel MachineState.zero = .done s ∧
        exec_tail_interp (body ++ [last]) fuel MachineState.zero = .done s := by
  have hlt : ∀ insn ∈ body, insn.op < OP_HALT := by
    intro insn hin
    rcases (hbody insn hin).1 with h | h | h | h <;> rw [h] <;> decide
  have hgood : ∀ insn ∈ body, acc_dest_arith insn := by
    intro insn hin
    obtain ⟨_, h2, h3, h4⟩ := hbody insn hin
    exact ⟨hlt insn hin, h2, by rw [h3]; decide, h4⟩
  have hfin := final_state_pc_flags body last hlen
  refine ⟨final_state body, ?_, fun fuel hfuel => ?_⟩
  · rw [hfin.2.2, body_run_acc body MachineState.zero
      (fun insn hin => ⟨hlt insn hin, (hbody insn hin).2.2.1⟩)]
    rfl
  · have h := straight_line_run body last hlast hgood hlen fuel
    simp only [hfuel, if_true] at h
    exact h

/-- Witness of C4 at `ADD 7; MUL 5; SUB 50; DIV 4; HALT` on the accumulator:
((0 + 7) * 5 - 50) / 4 = -15 / 4 = -3. -/
theorem engine_equals_replay_witness :
    replay [⟨OP_ADD, REG_ACC, REG_ACC, 7⟩, ⟨OP_MUL, REG_ACC, REG_ACC, 5⟩,
      ⟨OP_SUB, REG_ACC, REG_ACC, 50⟩, ⟨OP_DIV, REG_ACC, REG_ACC, 4⟩] = -3 ∧
    ∃ s : MachineState,
      s.acc = replay [⟨OP_ADD, REG_ACC, REG_ACC, 7⟩, ⟨OP_MUL, REG_ACC, REG_ACC, 5⟩,
        ⟨OP_SUB, REG_ACC, REG_ACC, 50⟩, ⟨OP_DIV, REG_ACC, REG_ACC, 4⟩] ∧
      ∀ fuel, 5 ≤ fuel →
        exec_switch_interp [⟨OP_ADD, REG_ACC, REG_ACC, 7⟩, ⟨OP_MUL, REG_ACC, REG_ACC, 5⟩,
          ⟨OP_SUB, REG_ACC, REG_ACC, 50⟩, ⟨OP_DIV, REG_ACC, REG_ACC, 4⟩,
          ⟨OP_HALT, REG_ACC, REG_ACC, 0⟩] fuel MachineState.zero = .done s ∧
        exec_goto_interp [⟨OP_ADD, REG_ACC, REG_ACC, 7⟩, ⟨OP_MUL, REG_ACC, REG_ACC, 5⟩,
          ⟨OP_SUB, REG_ACC, REG_ACC, 50⟩, ⟨OP_DIV, REG_ACC, REG_ACC, 4⟩,
          ⟨OP_HALT, REG_ACC, REG_ACC, 0⟩] fuel MachineState.zero = .done s ∧
        exec_tail_interp [⟨OP_ADD, REG_ACC, REG_ACC, 7⟩, ⟨OP_MUL, REG_ACC, REG_ACC, 5⟩,
          ⟨OP_SUB, REG_ACC, REG_ACC, 50⟩, ⟨OP_DIV, REG_ACC, REG_ACC, 4⟩,
          ⟨OP_HALT, REG_ACC, REG_ACC, 0⟩] fuel MachineState.zero = .done s :=
  ⟨by decide,
   engine_equals_replay
    [(⟨OP_ADD, REG_ACC, REG_ACC, 7⟩ : Instruction), ⟨OP_MUL, REG_ACC, REG_ACC, 5⟩,
      ⟨OP_SUB, REG_ACC, REG_ACC, 50⟩, ⟨OP_DIV, REG_ACC, REG_ACC, 4⟩]
    ⟨OP_HALT, REG_ACC, REG_ACC, 0⟩ rfl (by decide) (by decide)⟩


/-! ## Claims about the handlers -/

theorem store_then_advance (state : MachineState) (r : Nat) (v : Int)
    (hr : r < REG__COUNT) (hpc : r ≠ REG_PC) :
    ∃ s, ((setReg state r v).bind fun st => .ok (advance_pc st)) = .ok s ∧
      getReg s r = .ok v ∧ s.pc = wrap32 (state.pc + 1) := by
  have hcases : r = 1 ∨ r = 2 := by
    simp only [REG__COUNT] at hr; simp only [REG_PC] at hpc; omega
  rcases hcases with h | h <;> subst h <;>
    exact ⟨_, rfl, by simp [getReg, advance_pc], by simp [advance_pc]⟩

theorem impl_arith_effect (state : MachineState) (insn : Instruction)
    (hdest : insn.args0 < REG__COUNT) (hsrc : insn.args1 < REG__COUNT)
    (hpc : insn.args0 ≠ REG_PC) :
    (∃ s, impl_OP_ADD state insn = .ok s ∧
      getReg s insn.args0 = .ok (wrap32 (src_value state insn.args1 + insn.args2)) ∧
      s.pc = wrap32 (state.pc + 1)) ∧
    (∃ s, impl_OP_SUB state insn = .ok s ∧
      getReg s insn.args0 = .ok (wrap32 (src_value state insn.args1 - insn.args2)) ∧
      s.pc = wrap32 (state.pc + 1)) ∧
    (∃ s, impl_OP_MUL state insn = .ok s ∧
      getReg s insn.args0 = .ok (wrap32 (src_value state insn.args1 * insn.args2)) ∧
      s.pc = wrap32 (state.pc + 1)) ∧
    (insn.args2 ≠ 0 → ∃ s, impl_OP_DIV state insn = .ok s ∧
      getReg s insn.args0 = .ok (Int.tdiv (src_value state insn.args1) insn.args2) ∧
      s.pc = wrap32 (state.pc + 1)) := by
  have hg := getReg_ok_src_value state hsrc
  refine ⟨?_, ?_, ?_, ?_⟩
  · simp only [impl_OP_ADD, hg, Res.bind]
    exact store_then_advance state insn.args0 _ hdest hpc
  · simp only [impl_OP_SUB, hg, Res.bind]
    exact store_then_advance state insn.args0 _ hdest hpc
  · simp only [impl_OP_MUL, hg, Res.bind]
    exact store_then_advance state insn.args0 _ hdest hpc
  · intro hz
    simp only [impl_OP_DIV, hg, Res.bind, hz, if_false]
    exact store_then_advance state insn.args0 _ hdest hpc

/-- C5, counterexample: `ADD pc, acc, 5` has valid register operands; run in the
state `pc = 0, flags = 0, acc = 10` it leaves 16 in its destination `REG_PC`,
because the program counter is advanced after the sum 10 + 5 = 15 is stored
there. -/
theorem arithmetic_handlers_counterexample :
    validate_insn ⟨OP_ADD, REG_PC, REG_ACC, 5⟩ = some () ∧
    getReg ⟨0, 0, 10⟩ REG_ACC = .ok 10 ∧
    impl_OP_ADD ⟨0, 0, 10⟩ ⟨OP_ADD, REG_PC, REG_ACC, 5⟩ = .ok ⟨16, 0, 10⟩ ∧
    getReg ⟨16, 0, 10⟩ REG_PC = .ok 16 ∧
    (16 : Int) ≠ 10 + 5 := by
  decide

/-- C5, amended (arithmetic correctness per handler): for every state and every
instruction `(op, dest, src, imm)` whose register operands are valid and whose
destination is not `REG_PC`, with `v` the old value of the source register, the
destination holds `v + imm` after `impl_OP_ADD`, `v - imm` after `impl_OP_SUB`,
`v * imm` after `impl_OP_MUL` (each in 32-bit `int` arithmetic, hence exactly
that value whenever it fits an `int`) and, for a non-zero immediate, the quotient
of `v` by `imm` truncated toward zero after `impl_OP_DIV`. -/
theorem arithmetic_handlers (state : MachineState) (op dest src imm : Nat)
    (hdest : dest < REG__COUNT) (hsrc : src < REG__COUNT) (hpc : dest ≠ REG_PC) :
    ∃ v, getReg state src = .ok v ∧
      (∃ s, impl_OP_ADD state ⟨op, dest, src, imm⟩ = .ok s ∧
        getReg s dest = .ok (wrap32 (v + imm)) ∧
        (INT_MIN ≤ v + imm → v + imm ≤ INT_MAX → getReg s dest = .ok (v + imm))) ∧
      (∃ s, impl_OP_SUB state ⟨op, dest, src, imm⟩ = .ok s ∧
        getReg s dest = .ok (wrap32 (v - imm)) ∧
        (INT_MIN ≤ v - imm → v - imm ≤ INT_MAX → getReg s dest = .ok (v - imm))) ∧
      (∃ s, impl_OP_MUL state ⟨op, dest, src, imm⟩ = .ok s ∧
        getReg s dest = .ok (wrap32 (v * imm)) ∧
        (INT_MIN ≤ v * imm → v * imm ≤ INT_MAX → getReg s dest = .ok (v * imm))) ∧
      (imm ≠ 0 → ∃ s, impl_OP_DIV state ⟨op, dest, src, imm⟩ = .ok s ∧
        getReg s dest = .ok (Int.tdiv v imm)) := by
  obtain ⟨⟨s1, h1, g1, _⟩, ⟨s2, h2, g2, _⟩, ⟨s3, h3, g3, _⟩, h4⟩ :=
    impl_arith_effect state ⟨op, dest, src, imm⟩ hdest hsrc hpc
  refine ⟨src_value state src, getReg_ok_src_value state hsrc,
    ⟨s1, h1, g1, fun a b => ?_⟩, ⟨s2, h2, g2, fun a b => ?_⟩, ⟨s3, h3, g3, fun a b => ?_⟩,
    fun hz => ?_⟩
  · rw [g1]; exact congrArg Res.ok (wrap32_of_range a b)
  · rw [g2]; exact congrArg Res.ok (wrap32_of_range a b)
  · rw [g3]; exact congrArg Res.ok (wrap32_of_range a b)
  · obtain ⟨s4, h4, g4, _⟩ := h4 hz
    exact ⟨s4, h4, g4⟩

/-- Witness of amended C5 at the state `pc = 3, flags = 0, acc = -7` and the
operands `dest = REG_FLAGS, src = REG_ACC, imm = 2`. -/
theorem arithmetic_handlers_witness :
    REG_FLAGS < REG__COUNT ∧ REG_ACC < REG__COUNT ∧ REG_FLAGS ≠ REG_PC ∧
    ∃ v, getReg ⟨3, 0, -7⟩ REG_ACC = .ok v ∧
      (∃ s, impl_OP_ADD ⟨3, 0, -7⟩ ⟨OP_ADD, REG_FLAGS, REG_ACC, 2⟩ = .ok s ∧
        getReg s REG_FLAGS = .ok (wrap32 (v + (2 : Nat))) ∧
        (INT_MIN ≤ v + (2 : Nat) → v + (2 : Nat) ≤ INT_MAX →
          getReg s REG_FLAGS = .ok (v + (2 : Nat)))) ∧
      (∃ s, impl_OP_SUB ⟨3, 0, -7⟩ ⟨OP_ADD, REG_FLAGS, REG_ACC, 2⟩ = .ok s ∧
        getReg s REG_FLAGS = .ok (wrap32 (v - (2 : Nat))) ∧
        (INT_MIN ≤ v - (2 : Nat) → v - (2 : Nat) ≤ INT_MAX →
          getReg s REG_FLAGS = .ok (v - (2 : Nat)))) ∧
      (∃ s, impl_OP_MUL ⟨3, 0, -7⟩ ⟨OP_ADD, REG_FLAGS, REG_ACC, 2⟩ = .ok s ∧
        getReg s REG_FLAGS = .ok (wrap32 (v * (2 : Nat))) ∧
        (INT_MIN ≤ v * (2 : Nat) → v * (2 : Nat) ≤ INT_MAX →
          getReg s REG_FLAGS = .ok (v * (2 : Nat)))) ∧
      ((2 : Nat) ≠ 0 → ∃ s, impl_OP_DIV ⟨3, 0, -7⟩ ⟨OP_ADD, REG_FLAGS, REG_ACC, 2⟩ = .ok s ∧
        getReg s REG_FLAGS = .ok (Int.tdiv v (2 : Nat))) :=
  ⟨by decide, by decide, by decide,
   arithmetic_handlers ⟨3, 0, -7⟩ OP_ADD REG_FLAGS REG_ACC 2 (by decide) (by decide)
    (by decide)⟩

/-- C6, counterexample: `MUL pc, pc, 3` has valid register operands; run in the
state `pc = 4, flags = 0, acc = 0` it leaves `REG_PC = 4 * 3 + 1 = 13`, not
`4 + 1`. -/
theorem pc_advance_counterexample :
    validate_insn ⟨OP_MUL, REG_PC, REG_PC, 3⟩ = some () ∧
    impl_OP_MUL ⟨4, 0, 0⟩ ⟨OP_MUL, REG_PC, REG_PC, 3⟩ = .ok ⟨13, 0, 0⟩ ∧
    (13 : Int) ≠ 4 + 1 := by
  decide

/-- C6, amended (every handler advances the program counter by one): for every
state `s` and every instruction `(op, dest, src, imm)`, `impl_OP_HALT` leaves
`REG_PC` equal to `s.REG_PC + 1`, and so do `impl_OP_ADD`, `impl_OP_SUB`,
`impl_OP_MUL` and, for a non-zero immediate, `impl_OP_DIV` when the register
operands are valid and the destination is not `REG_PC`; the sum is taken in
32-bit `int` arithmetic, hence is exactly `s.REG_PC + 1` for
`INT_MIN ≤ s.REG_PC < INT_MAX`. -/
theorem pc_advance (state : MachineState) (op dest src imm : Nat) :
    (∃ s, impl_OP_HALT state ⟨op, dest, src, imm⟩ = .ok s ∧
      s.pc = wrap32 (state.pc + 1)) ∧
    (dest < REG__COUNT → src < REG__COUNT → dest ≠ REG_PC →
      (∃ s, impl_OP_ADD state ⟨op, dest, src, imm⟩ = .ok s ∧
        s.pc = wrap32 (state.pc + 1)) ∧
      (∃ s, impl_OP_SUB state ⟨op, dest, src, imm⟩ = .ok s ∧
        s.pc = wrap32 (state.pc + 1)) ∧
      (∃ s, impl_OP_MUL state ⟨op, dest, src, imm⟩ = .ok s ∧
        s.pc = wrap32 (state.pc + 1)) ∧
      (imm ≠ 0 → ∃ s, impl_OP_DIV state ⟨op, dest, src, imm⟩ = .ok s ∧
        s.pc = wrap32 (state.pc + 1))) ∧
    (INT_MIN ≤ state.pc → state.pc < INT_MAX → wrap32 (state.pc + 1) = state.pc + 1) := by
  refine ⟨⟨_, rfl, rfl⟩, fun hdest hsrc hpc => ?_, fun a b => ?_⟩
  · obtain ⟨⟨s1, h1, _, p1⟩, ⟨s2, h2, _, p2⟩, ⟨s3, h3, _, p3⟩, h4⟩ :=
      impl_arith_effect state ⟨op, dest, src, imm⟩ hdest hsrc hpc
    refine ⟨⟨s1, h1, p1⟩, ⟨s2, h2, p2⟩, ⟨s3, h3, p3⟩, fun hz => ?_⟩
    obtain ⟨s4, h4, _, p4⟩ := h4 hz
    exact ⟨s4, h4, p4⟩
  · apply wrap32_of_range
    · simp only [INT_MIN] at a ⊢; omega
    · simp only [INT_MAX] at b ⊢; omega

/-- Witness of amended C6 at the state `pc = 41, flags = 0, acc = 9` and the
operands `dest = REG_ACC, src = REG_PC, imm = 5`: every handler leaves
`REG_PC = 42`. -/
theorem pc_advance_witness :
    REG_ACC < REG__COUNT ∧ REG_PC < REG__COUNT ∧ REG_ACC ≠ REG_PC ∧ (5 : Nat) ≠ 0 ∧
    INT_MIN ≤ (41 : Int) ∧ (41 : Int) < INT_MAX ∧
    (∃ s, impl_OP_HALT ⟨41, 0, 9⟩ ⟨OP_DIV, REG_ACC, REG_PC, 5⟩ = .ok s ∧ s.pc = 42) ∧
    (∃ s, impl_OP_ADD ⟨41, 0, 9⟩ ⟨OP_DIV, REG_ACC, REG_PC, 5⟩ = .ok s ∧ s.pc = 42) ∧
    (∃ s, impl_OP_DIV ⟨41, 0, 9⟩ ⟨OP_DIV, REG_ACC, REG_PC, 5⟩ = .ok s ∧ s.pc = 42) :=
  have h := pc_advance ⟨41, 0, 9⟩ OP_DIV REG_ACC REG_PC 5
  have hw : wrap32 ((41 : Int) + 1) = 42 := h.2.2 (by decide) (by decide)
  have ha := h.2.1 (by decide) (by decide) (by decide)
  ⟨by decide, by decide, by decide, by decide, by decide, by decide,
   h.1.imp fun _ hs => ⟨hs.1, hs.2.trans hw⟩,
   ha.1.imp fun _ hs => ⟨hs.1, hs.2.trans hw⟩,
   (ha.2.2.2 (by decide)).imp fun _ hs => ⟨hs.1, hs.2.trans hw⟩⟩

/-- C7 (HALT's effect is confined to the HALTED bit and the PC): for every state
`s` and every instruction, `impl_OP_HALT` yields `REG_FLAGS = s.REG_FLAGS |
FLAG_HALTED`, so that bit 0 is set and every other bit is the one of
`s.REG_FLAGS`; `REG_PC = s.REG_PC + 1` in 32-bit `int` arithmetic (exactly
`s.REG_PC + 1` for `INT_MIN ≤ s.REG_PC < INT_MAX`); and `REG_ACC = s.REG_ACC`. -/
theorem halt_frame (state : MachineState) (insn : Instruction) :
    ∃ s, impl_OP_HALT state insn = .ok s ∧
      s.flags = Int.lor state.flags FLAG_HALTED ∧
      (∀ k, s.flags.testBit k = (state.flags.testBit k || decide (k = 0))) ∧
      s.pc = wrap32 (state.pc + 1) ∧
      (INT_MIN ≤ state.pc → state.pc < INT_MAX → s.pc = state.pc + 1) ∧
      s.acc = state.acc := by
  refine ⟨_, rfl, rfl, fun k => ?_, rfl, fun a b => ?_, rfl⟩
  · show (Int.lor state.flags 1).testBit k = _
    rw [Int.testBit_lor]
    congr 1
    cases k with
    | zero => rfl
    | succ k =>
      show Nat.testBit 1 (k + 1) = decide (k + 1 = 0)
      rw [Nat.testBit_succ]
      simp
  · show wrap32 (state.pc + 1) = _
    apply wrap32_of_range
    · simp only [INT_MIN] at a ⊢; omega
    · simp only [INT_MAX] at b ⊢; omega

/-- Witness of C7 at the state `pc = 9, flags = 6, acc = -4`: HALT yields
`pc = 10, flags = 7, acc = -4`. -/
theorem halt_frame_witness :
    INT_MIN ≤ (9 : Int) ∧ (9 : Int) < INT_MAX ∧
    impl_OP_HALT ⟨9, 6, -4⟩ ⟨OP_HALT, 1, 0, 200⟩ = .ok ⟨10, 7, -4⟩ :=
  have ⟨s, h, hf, _, _, hp, ha⟩ := halt_frame ⟨9, 6, -4⟩ ⟨OP_HALT, 1, 0, 200⟩
  ⟨by decide, by decide, by
    rw [h]
    have h1 : s.pc = 10 := by rw [hp (by decide) (by decide)]; rfl
    have h2 : s.flags = 7 := by rw [hf]; decide
    have h3 : s.acc = -4 := ha
    cases s
    simp only at h1 h2 h3
    rw [h1, h2, h3]⟩


/-! ## Claims about the generator -/

/-- C8 (program invariant established by the generator): for every buffer of
`n ≥ 1` slots and every pseudo-random stream, `init_insns` leaves a program of
`n` instructions whose last one has opcode `OP_HALT` and whose every earlier one
has an opcode among ADD, SUB, MUL, DIV (never HALT), destination and source
`REG_ACC`, an immediate below 10, and a non-zero immediate when the opcode is
DIV. -/
theorem generator_invariant (gen : Nat → Nat → Nat) (r : RandState)
    (insns : List Instruction) (hn : 1 ≤ insns.length) :
    (init_insns gen r insns).2.length = insns.length ∧
    (∃ last, (init_insns gen r insns).2[insns.length - 1]? = some last ∧
      last.op = OP_HALT) ∧
    ∀ i, i < insns.length - 1 →
      ∃ insn, (init_insns gen r insns).2[i]? = some insn ∧
        (insn.op = OP_ADD ∨ insn.op = OP_SUB ∨ insn.op = OP_MUL ∨ insn.op = OP_DIV) ∧
        insn.op ≠ OP_HALT ∧ insn.args0 = REG_ACC ∧ insn.args1 = REG_ACC ∧
        insn.args2 < 10 ∧ (insn.op = OP_DIV → insn.args2 ≠ 0) := by
  refine ⟨init_insns_length gen r insns, ⟨slot gen insns.length (insns.length - 1), ?_, ?_⟩,
    fun i hi => ⟨slot gen insns.length i, ?_, ?_⟩⟩
  · rw [init_insns_getElem?, if_pos (by omega)]
  · simp [slot]
  · rw [init_insns_getElem?, if_pos (by omega)]
  · obtain ⟨h1, h2, h3, h4, h5⟩ := slot_body gen insns.length i hi
    refine ⟨?_, ?_, h2, h3, h4, h5⟩
    · simp only [OP_HALT] at h1
      simp only [OP_ADD, OP_SUB, OP_MUL, OP_DIV]
      omega
    · simp only [OP_HALT] at h1 ⊢
      omega

/-- Witness of C8 on a zeroed buffer of three slots and the stream
`k ↦ 7 * k + 3`, whose program is `DIV acc, acc, 1; SUB acc, acc, 4; HALT`. -/
theorem generator_invariant_witness :
    (init_insns (fun _ k => 7 * k + 3) ⟨0, 0⟩ (List.replicate 3 ⟨0, 0, 0, 0⟩)).2 =
      [⟨OP_DIV, REG_ACC, REG_ACC, 1⟩, ⟨OP_SUB, REG_ACC, REG_ACC, 4⟩,
        ⟨OP_HALT, REG_ACC, REG_ACC, 0⟩] ∧
    ((init_insns (fun _ k => 7 * k + 3) ⟨0, 0⟩ (List.replicate 3 ⟨0, 0, 0, 0⟩)).2.length =
        (List.replicate 3 (⟨0, 0, 0, 0⟩ : Instruction)).length ∧
      (∃ last, (init_insns (fun _ k => 7 * k + 3) ⟨0, 0⟩ (List.replicate 3 ⟨0, 0, 0, 0⟩)).2[
          (List.replicate 3 (⟨0, 0, 0, 0⟩ : Instruction)).length - 1]? = some last ∧
        last.op = OP_HALT) ∧
      ∀ i, i < (List.replicate 3 (⟨0, 0, 0, 0⟩ : Instruction)).length - 1 →
        ∃ insn, (init_insns (fun _ k => 7 * k + 3) ⟨0, 0⟩
            (List.replicate 3 ⟨0, 0, 0, 0⟩)).2[i]? = some insn ∧
          (insn.op = OP_ADD ∨ insn.op = OP_SUB ∨ insn.op = OP_MUL ∨ insn.op = OP_DIV) ∧
          insn.op ≠ OP_HALT ∧ insn.args0 = REG_ACC ∧ insn.args1 = REG_ACC ∧
          insn.args2 < 10 ∧ (insn.op = OP_DIV → insn.args2 ≠ 0)) :=
  ⟨by decide,
   generator_invariant (fun _ k => 7 * k + 3) ⟨0, 0⟩ (List.replicate 3 ⟨0, 0, 0, 0⟩)
    (by decide)⟩

/-- C9, counterexample: on a zeroed buffer of two slots and the constant stream 0
the generated program is `ADD acc, acc, 0; HALT acc, acc, 0`: the operands of the
final HALT are `REG_ACC` (2), `REG_ACC` (2) and 0, not all zero. -/
theorem final_slot_counterexample :
    (init_insns (fun _ _ => 0) ⟨0, 0⟩ [⟨0, 0, 0, 0⟩, ⟨0, 0, 0, 0⟩]).2 =
      [⟨OP_ADD, 2, 2, 0⟩, ⟨OP_HALT, 2, 2, 0⟩] ∧
    (Instruction.mk OP_HALT 2 2 0).args0 ≠ 0 ∧ (Instruction.mk OP_HALT 2 2 0).args1 ≠ 0 := by
  decide

/-- C9, amended (the final slot written by `init_insns`): for every buffer of
`n ≥ 1` slots and every pseudo-random stream, the last instruction of the
generated program has `op = OP_HALT`, `args[0] = args[1] = REG_ACC` and
`args[2] = 0`. -/
theorem final_slot (gen : Nat → Nat → Nat) (r : RandState)
    (insns : List Instruction) (hn : 1 ≤ insns.length) :
    (init_insns gen r insns).2[insns.length - 1]? =
        some ⟨OP_HALT, REG_ACC, REG_ACC, 0⟩ ∧
    (init_insns gen r insns).2.getLast? = some ⟨OP_HALT, REG_ACC, REG_ACC, 0⟩ := by
  constructor
  · rw [init_insns_getElem?, if_pos (by omega)]
    simp [slot]
  · rw [init_insns_eq gen r insns hn]
    simp

/-- Witness of amended C9 on a zeroed buffer of one slot. -/
theorem final_slot_witness :
    1 ≤ [(⟨0, 0, 0, 0⟩ : Instruction)].length ∧
    (init_insns (fun _ k => k) ⟨5, 9⟩ [⟨0, 0, 0, 0⟩]).2[
        [(⟨0, 0, 0, 0⟩ : Instruction)].length - 1]? =
      some ⟨OP_HALT, REG_ACC, REG_ACC, 0⟩ ∧
    (init_insns (fun _ k => k) ⟨5, 9⟩ [⟨0, 0, 0, 0⟩]).2.getLast? =
      some ⟨OP_HALT, REG_ACC, REG_ACC, 0⟩ :=
  ⟨by decide, final_slot (fun _ k => k) ⟨5, 9⟩ [⟨0, 0, 0, 0⟩] (by decide)⟩

/-- C10 (no division by zero and no out-of-range access on generated programs):
for every buffer of `n` slots with `1 ≤ n ≤ INT_MAX` and every pseudo-random
stream, no engine run from the all-zero state on the generated program ever
faults, whatever the fuel: no fetch index falls outside `[0, n)`, no register
index outside `[0, REG__COUNT)`, no opcode outside the dispatch tables and no
`impl_OP_DIV` runs with a zero immediate.  Every index below `n` fetches an
instruction whose register operands are below `REG__COUNT` and whose immediate is
non-zero when its opcode is DIV. -/
theorem generated_program_safe (gen : Nat → Nat → Nat) (r : RandState)
    (insns : List Instruction) (hn : 1 ≤ insns.length)
    (hmax : (insns.length : Int) ≤ INT_MAX) :
    (∀ fuel f,
      exec_switch_interp (init_insns gen r insns).2 fuel MachineState.zero ≠ .fault f ∧
      exec_goto_interp (init_insns gen r insns).2 fuel MachineState.zero ≠ .fault f ∧
      exec_tail_interp (init_insns gen r insns).2 fuel MachineState.zero ≠ .fault f) ∧
    (∀ i : Nat, i < insns.length →
      ∃ insn, fetch (init_insns gen r insns).2 i = .ok insn ∧
        insn.op < OP__COUNT ∧ insn.args0 < REG__COUNT ∧ insn.args1 < REG__COUNT ∧
        (insn.op = OP_DIV → insn.args2 ≠ 0)) := by
  constructor
  · intro fuel f
    obtain ⟨h1, h2, h3⟩ := generated_run gen r insns hn hmax fuel
    rw [h1, h2, h3]
    by_cases hf : insns.length ≤ fuel <;> simp [hf]
  · intro i hi
    refine ⟨slot gen insns.length i, ?_, ?_⟩
    · apply fetch_ofNat
      rw [init_insns_getElem?, if_pos hi]
    · by_cases hlast : i = insns.length - 1
      · simp [slot, hlast]
      · obtain ⟨h1, h2, h3, _, h5⟩ := slot_body gen insns.length i (by omega)
        refine ⟨?_, ?_, ?_, h5⟩
        · simp only [OP_HALT] at h1; simp only [OP__COUNT]; omega
        · rw [h2]; decide
        · rw [h3]; decide

/-- Witness of C10 on a zeroed buffer of five slots and the stream
`k ↦ 11 * k + 3`. -/
theorem generated_program_safe_witness :
    1 ≤ (List.replicate 5 (⟨0, 0, 0, 0⟩ : Instruction)).length ∧
    ((List.replicate 5 (⟨0, 0, 0, 0⟩ : Instruction)).length : Int) ≤ INT_MAX ∧
    ∀ fuel f,
      exec_switch_interp (init_insns (fun _ k => 11 * k + 3) ⟨0, 0⟩
        (List.replicate 5 ⟨0, 0, 0, 0⟩)).2 fuel MachineState.zero ≠ .fault f ∧
      exec_goto_interp (init_insns (fun _ k => 11 * k + 3) ⟨0, 0⟩
        (List.replicate 5 ⟨0, 0, 0, 0⟩)).2 fuel MachineState.zero ≠ .fault f ∧
      exec_tail_interp (init_insns (fun _ k => 11 * k + 3) ⟨0, 0⟩
        (List.replicate 5 ⟨0, 0, 0, 0⟩)).2 fuel MachineState.zero ≠ .fault f :=
  ⟨by decide, by decide,
   (generated_program_safe (fun _ k => 11 * k + 3) ⟨0, 0⟩ (List.replicate 5 ⟨0, 0, 0, 0⟩)
    (by decide) (by decide)).1⟩

/-! ## Claims about the validator, determinism and halted states -/

/-- C11 (the validator rejects exactly the malformed instructions): for every
instruction, `validate_insn` fails if and only if its opcode is at least
`OP__COUNT` or its destination `args[0]` or its source `args[1]` is at least
`REG__COUNT`; and `validate_insns` fails if and only if it rejects some
instruction of the program. -/
theorem validator_rejects_exactly :
    (∀ insn : Instruction, validate_insn insn = none ↔
      (OP__COUNT ≤ insn.op ∨ REG__COUNT ≤ insn.args0 ∨ REG__COUNT ≤ insn.args1)) ∧
    (∀ insns : List Instruction, validate_insns insns = none ↔
      ∃ insn ∈ insns, validate_insn insn = none) := by
  have key : ∀ o : Option Unit, o = none ↔ ¬ o = some () := by
    intro o; cases o <;> simp
  constructor
  · intro insn
    rw [key, validate_insn_iff]
    omega
  · intro insns
    rw [key, validate_insns_iff]
    simp only [not_forall, key, exists_prop]

/-- C13 (generator determinism): `init_insns` overwrites every slot and reseeds
the generator, so the program it leaves depends only on the pseudo-random stream
and the buffer length: two calls on buffers of equal length, whatever their
prior contents and whatever the prior generator states, leave the same program,
and so does a second call on the result of a first. -/
theorem generator_determinism (gen : Nat → Nat → Nat) (r1 r2 : RandState)
    (insns1 insns2 : List Instruction) (hlen : insns1.length = insns2.length) :
    (init_insns gen r1 insns1).2 = (init_insns gen r2 insns2).2 ∧
    (init_insns gen (init_insns gen r1 insns1).1 (init_insns gen r1 insns1).2).2 =
      (init_insns gen r1 insns1).2 := by
  have h : ∀ (ra rb : RandState) (a b : List Instruction), a.length = b.length →
      (init_insns gen ra a).2 = (init_insns gen rb b).2 := by
    intro ra rb a b hab
    apply List.ext_getElem?
    intro j
    rw [init_insns_getElem?, init_insns_getElem?, hab]
  exact ⟨h r1 r2 insns1 insns2 hlen, h _ _ _ _ (init_insns_length gen r1 insns1)⟩

/-- Witness of C13: a zeroed buffer and a buffer of arbitrary instructions, both
of three slots, with different prior generator states. -/
theorem generator_determinism_witness :
    (init_insns (fun s k => s + 5 * k) ⟨0, 0⟩ (List.replicate 3 ⟨0, 0, 0, 0⟩)).2 =
      (init_insns (fun s k => s + 5 * k) ⟨42, 17⟩
        [⟨4, 0, 1, 9⟩, ⟨200, 7, 7, 7⟩, ⟨1, 2, 0, 255⟩]).2 ∧
    (init_insns (fun s k => s + 5 * k)
        (init_insns (fun s k => s + 5 * k) ⟨0, 0⟩ (List.replicate 3 ⟨0, 0, 0, 0⟩)).1
        (init_insns (fun s k => s + 5 * k) ⟨0, 0⟩ (List.replicate 3 ⟨0, 0, 0, 0⟩)).2).2 =
      (init_insns (fun s k => s + 5 * k) ⟨0, 0⟩ (List.replicate 3 ⟨0, 0, 0, 0⟩)).2 :=
  generator_determinism (fun s k => s + 5 * k) ⟨0, 0⟩ ⟨42, 17⟩
    (List.replicate 3 ⟨0, 0, 0, 0⟩) [⟨4, 0, 1, 9⟩, ⟨200, 7, 7, 7⟩, ⟨1, 2, 0, 255⟩] (by decide)

/-- C15 (a halted state is a fixed point of every engine): for every program,
every fuel (zero included, so no fetch is made) and every state whose
`REG_FLAGS` has the `FLAG_HALTED` bit set, whatever its `REG_PC`, each engine
returns at once with the state unchanged. -/
theorem halted_is_fixed_point (insns : List Instruction) (fuel : Nat)
    (state : MachineState) (hhalted : Int.land state.flags FLAG_HALTED ≠ 0) :
    exec_switch_interp insns fuel state = .done state ∧
    exec_goto_interp insns fuel state = .done state ∧
    exec_tail_interp insns fuel state = .done state := by
  have h : should_run state = false := by
    simp [should_run, hhalted]
  exact ⟨exec_switch_interp_halted insns fuel state h,
    exec_goto_interp_halted insns fuel state h,
    exec_tail_dispatch_halted insns fuel state none h⟩

/-- Witness of C15: the empty program, no fuel, and a halted state whose
`REG_PC` is -5. -/
theorem halted_is_fixed_point_witness :
    Int.land (MachineState.mk (-5) 3 77).flags FLAG_HALTED ≠ 0 ∧
    exec_switch_interp [] 0 ⟨-5, 3, 77⟩ = .done ⟨-5, 3, 77⟩ ∧
    exec_goto_interp [] 0 ⟨-5, 3, 77⟩ = .done ⟨-5, 3, 77⟩ ∧
    exec_tail_interp [] 0 ⟨-5, 3, 77⟩ = .done ⟨-5, 3, 77⟩ :=
  ⟨by decide, halted_is_fixed_point [] 0 ⟨-5, 3, 77⟩ (by decide)⟩

/-- C18 (an out-of-range opcode stalls the switch engine): for every state
without the `FLAG_HALTED` bit whose `REG_PC` fetches an instruction with opcode
at least `OP__COUNT`, one round of the loop of `exec_switch_interp` leaves the
state as it is, so the engine is out of fuel for every fuel and never returns a
state. -/
theorem switch_stalls (insns : List Instruction) (state : MachineState)
    (insn : Instruction) (hrun : Int.land state.flags FLAG_HALTED = 0)
    (hfetch : fetch insns state.pc = .ok insn) (hop : OP__COUNT ≤ insn.op) :
    (∀ fuel, exec_switch_interp insns (fuel + 1) state =
      exec_switch_interp insns fuel state) ∧
    (∀ fuel, exec_switch_interp insns fuel state = .outOfFuel) ∧
    (∀ fuel s, exec_switch_interp insns fuel state ≠ .done s) := by
  have hr : should_run state = true := by simp [should_run, hrun]
  have hstep : ∀ fuel, exec_switch_interp insns (fuel + 1) state =
      exec_switch_interp insns fuel state := by
    intro fuel
    rw [exec_switch_interp]
    simp only [hr, if_true, hfetch]
    have h0 : ¬ insn.op = OP_ADD := by simp only [OP__COUNT] at hop; simp only [OP_ADD]; omega
    have h1 : ¬ insn.op = OP_SUB := by simp only [OP__COUNT] at hop; simp only [OP_SUB]; omega
    have h2 : ¬ insn.op = OP_MUL := by simp only [OP__COUNT] at hop; simp only [OP_MUL]; omega
    have h3 : ¬ insn.op = OP_DIV := by simp only [OP__COUNT] at hop; simp only [OP_DIV]; omega
    have h4 : ¬ insn.op = OP_HALT := by simp only [OP__COUNT] at hop; simp only [OP_HALT]; omega
    simp only [h0, h1, h2, h3, h4, if_false]
  have hout : ∀ fuel, exec_switch_interp insns fuel state = .outOfFuel := by
    intro fuel
    induction fuel with
    | zero => simp [exec_switch_interp, hr]
    | succ fuel ih => rw [hstep, ih]
  refine ⟨hstep, hout, fun fuel s => ?_⟩
  rw [hout]
  intro h
  cases h

/-- Witness of C18: the program whose only instruction has opcode 9, from the
all-zero state. -/
theorem switch_stalls_witness :
    Int.land MachineState.zero.flags FLAG_HALTED = 0 ∧
    fetch [⟨9, 2, 2, 0⟩] MachineState.zero.pc = .ok ⟨9, 2, 2, 0⟩ ∧
    (∀ fuel, exec_switch_interp [⟨9, 2, 2, 0⟩] (fuel + 1) MachineState.zero =
      exec_switch_interp [⟨9, 2, 2, 0⟩] fuel MachineState.zero) ∧
    (∀ fuel, exec_switch_interp [⟨9, 2, 2, 0⟩] fuel MachineState.zero = .outOfFuel) ∧
    (∀ fuel s, exec_switch_interp [⟨9, 2, 2, 0⟩] fuel MachineState.zero ≠ .done s) :=
  ⟨by decide, by decide,
   switch_stalls [⟨9, 2, 2, 0⟩] MachineState.zero ⟨9, 2, 2, 0⟩ (by decide) (by decide)
    (by decide)⟩

/-! ## Claims about the arithmetic of DIV and of the comparator -/

/-- C19 (`compare_ints` is a three-way comparator on the sampled range): for
`a`, `b`, `c` in `[0, 2^31)` the subtraction does not overflow, so
`compare_ints a b` is `a - b`: negative iff `a < b`, zero iff `a = b`, positive
iff `a > b`; it is antisymmetric (swapping the arguments swaps the sign) and
transitive. -/
theorem compare_ints_three_way (a b c : Int)
    (ha : 0 ≤ a ∧ a ≤ INT_MAX) (hb : 0 ≤ b ∧ b ≤ INT_MAX) (hc : 0 ≤ c ∧ c ≤ INT_MAX) :
    compare_ints a b = a - b ∧
    (compare_ints a b < 0 ↔ a < b) ∧
    (compare_ints a b = 0 ↔ a = b) ∧
    (0 < compare_ints a b ↔ b < a) ∧
    (compare_ints a b < 0 ↔ 0 < compare_ints b a) ∧
    (compare_ints a b = 0 ↔ compare_ints b a = 0) ∧
    (compare_ints a b ≤ 0 → compare_ints b c ≤ 0 → compare_ints a c ≤ 0) ∧
    (compare_ints a b < 0 → compare_ints b c < 0 → compare_ints a c < 0) := by
  obtain ⟨ha0, ha1⟩ := ha
  obtain ⟨hb0, hb1⟩ := hb
  obtain ⟨hc0, hc1⟩ := hc
  simp only [INT_MAX] at ha1 hb1 hc1
  have hab : compare_ints a b = a - b :=
    wrap32_of_range (by simp only [INT_MIN]; omega) (by simp only [INT_MAX]; omega)
  have hba : compare_ints b a = b - a :=
    wrap32_of_range (by simp only [INT_MIN]; omega) (by simp only [INT_MAX]; omega)
  have hbc : compare_ints b c = b - c :=
    wrap32_of_range (by simp only [INT_MIN]; omega) (by simp only [INT_MAX]; omega)
  have hac : compare_ints a c = a - c :=
    wrap32_of_range (by simp only [INT_MIN]; omega) (by simp only [INT_MAX]; omega)
  rw [hab, hba, hbc, hac]
  refine ⟨rfl, ?_, ?_, ?_, ?_, ?_, ?_, ?_⟩ <;> omega

/-- Witness of C19 at `a = 3`, `b = 2147483647`, `c = 2147483647`. -/
theorem compare_ints_three_way_witness :
    compare_ints 3 2147483647 = 3 - 2147483647 ∧
    (compare_ints 3 2147483647 < 0 ↔ (3 : Int) < 2147483647) ∧
    (compare_ints 3 2147483647 = 0 ↔ (3 : Int) = 2147483647) ∧
    (0 < compare_ints 3 2147483647 ↔ (2147483647 : Int) < 3) ∧
    (compare_ints 3 2147483647 < 0 ↔ 0 < compare_ints 2147483647 3) ∧
    (compare_ints 3 2147483647 = 0 ↔ compare_ints 2147483647 3 = 0) ∧
    (compare_ints 3 2147483647 ≤ 0 → compare_ints 2147483647 2147483647 ≤ 0 →
      compare_ints 3 2147483647 ≤ 0) ∧
    (compare_ints 3 2147483647 < 0 → compare_ints 2147483647 2147483647 < 0 →
      compare_ints 3 2147483647 < 0) :=
  compare_ints_three_way 3 2147483647 2147483647 (by decide) (by decide) (by decide)

theorem tdiv_remainder (a d : Int) (hd : 0 < d) :
    (0 ≤ a → 0 ≤ a - Int.tdiv a d * d ∧ a - Int.tdiv a d * d < d ∧
      0 ≤ Int.tdiv a d ∧ Int.tdiv a d ≤ a) ∧
    (a ≤ 0 → -d < a - Int.tdiv a d * d ∧ a - Int.tdiv a d * d ≤ 0 ∧
      a ≤ Int.tdiv a d ∧ Int.tdiv a d ≤ 0) := by
  have hpos : ∀ b : Int, 0 ≤ b → 0 ≤ b - Int.tdiv b d * d ∧ b - Int.tdiv b d * d < d ∧
      0 ≤ Int.tdiv b d ∧ Int.tdiv b d ≤ b := by
    intro b hb
    rw [Int.tdiv_eq_ediv hb (le_of_lt hd)]
    have h1 := Int.emod_nonneg b (ne_of_gt hd)
    have h2 := Int.emod_lt_of_pos b hd
    have h3 := Int.emod_add_ediv b d
    have h4 : 0 ≤ b / d := Int.ediv_nonneg hb (le_of_lt hd)
    have h5 : b / d ≤ b := Int.ediv_le_self d hb
    have h6 : b / d * d = d * (b / d) := Int.mul_comm _ _
    refine ⟨?_, ?_, h4, h5⟩ <;> omega
  refine ⟨hpos a, fun ha => ?_⟩
  have h := hpos (-a) (by omega)
  rw [Int.neg_tdiv] at h
  have h6 : -Int.tdiv a d * d = -(Int.tdiv a d * d) := Int.neg_mul _ _
  refine ⟨?_, ?_, ?_, ?_⟩ <;> omega

/-- C17 (DIV rounds toward zero): for every state whose accumulator `a` is a
32-bit value and every immediate `d` in `[1, 255]`, `impl_OP_DIV` with
destination and source `REG_ACC` leaves in `REG_ACC` a 32-bit quotient `q` with
`a = q * d + r` for a remainder `r` with `|r| < d` that is zero or has the sign
of `a`; and `q` is the only integer with such a remainder. -/
theorem div_rounds_toward_zero (state : MachineState) (op d : Nat)
    (hacc : INT_MIN ≤ state.acc ∧ state.acc ≤ INT_MAX) (hd : 1 ≤ d ∧ d ≤ 255) :
    ∃ s, impl_OP_DIV state ⟨op, REG_ACC, REG_ACC, d⟩ = .ok s ∧
      (∃ r : Int, state.acc = s.acc * d + r ∧ |r| < d ∧
        (r = 0 ∨ (0 < r ∧ 0 < state.acc) ∨ (r < 0 ∧ state.acc < 0))) ∧
      (∀ q r : Int, state.acc = q * d + r → |r| < d →
        (r = 0 ∨ (0 < r ∧ 0 < state.acc) ∨ (r < 0 ∧ state.acc < 0)) → q = s.acc) ∧
      INT_MIN ≤ s.acc ∧ s.acc ≤ INT_MAX := by
  have hd0 : d ≠ 0 := by omega
  have hdpos : (0 : Int) < d := by omega
  obtain ⟨hnonneg, hnonpos⟩ := tdiv_remainder state.acc d hdpos
  have hex : ∃ r : Int, state.acc = Int.tdiv state.acc d * d + r ∧ |r| < d ∧
      (r = 0 ∨ (0 < r ∧ 0 < state.acc) ∨ (r < 0 ∧ state.acc < 0)) := by
    refine ⟨state.acc - Int.tdiv state.acc d * d, by ring, ?_, ?_⟩
    · rw [abs_lt]
      rcases le_total 0 state.acc with h | h
      · have := hnonneg h; constructor <;> omega
      · have := hnonpos h; constructor <;> omega
    · rcases le_total 0 state.acc with h | h
      · have := hnonneg h; omega
      · have := hnonpos h; omega
  refine ⟨advance_pc { state with acc := Int.tdiv state.acc d }, ?_, hex, ?_, ?_, ?_⟩
  · simp [impl_OP_DIV, getReg, setReg, Res.bind, hd0]
  · intro q r hq hr hsign
    obtain ⟨r0, hq0, hr0, hsign0⟩ := hex
    show q = Int.tdiv state.acc d
    rw [abs_lt] at hr hr0
    have hdvd : (d : Int) ∣ (r0 - r) := ⟨q - Int.tdiv state.acc d, by
      have : (d : Int) * (q - Int.tdiv state.acc d) = q * d - Int.tdiv state.acc d * d := by
        ring
      rw [this]; omega⟩
    have habs : |r0 - r| < (d : Int) := by
      rw [abs_lt]; constructor <;> omega
    have hzero := Int.eq_zero_of_abs_lt_dvd hdvd habs
    have hmul : (q - Int.tdiv state.acc d) * d = 0 := by
      have : (q - Int.tdiv state.acc d) * d = q * d - Int.tdiv state.acc d * d := by ring
      rw [this]; omega
    rcases mul_eq_zero.mp hmul with h | h
    · omega
    · omega
  · show INT_MIN ≤ Int.tdiv state.acc d
    simp only [INT_MIN, INT_MAX] at hacc ⊢
    rcases le_total 0 state.acc with h | h
    · have := hnonneg h; omega
    · have := hnonpos h; omega
  · show Int.tdiv state.acc d ≤ INT_MAX
    simp only [INT_MIN, INT_MAX] at hacc ⊢
    rcases le_total 0 state.acc with h | h
    · have := hnonneg h; omega
    · have := hnonpos h; omega

/-- Witness of C17: -7 / 2 = -3, with remainder -1. -/
theorem div_rounds_toward_zero_witness :
    (INT_MIN ≤ (-7 : Int) ∧ (-7 : Int) ≤ INT_MAX) ∧ (1 ≤ 2 ∧ 2 ≤ 255) ∧
    impl_OP_DIV ⟨0, 0, -7⟩ ⟨OP_DIV, REG_ACC, REG_ACC, 2⟩ = .ok ⟨1, 0, -3⟩ ∧
    ∃ s, impl_OP_DIV ⟨0, 0, -7⟩ ⟨OP_DIV, REG_ACC, REG_ACC, 2⟩ = .ok s ∧
      (∃ r : Int, (-7 : Int) = s.acc * (2 : Nat) + r ∧ |r| < (2 : Nat) ∧
        (r = 0 ∨ (0 < r ∧ 0 < (-7 : Int)) ∨ (r < 0 ∧ (-7 : Int) < 0))) ∧
      (∀ q r : Int, (-7 : Int) = q * (2 : Nat) + r → |r| < (2 : Nat) →
        (r = 0 ∨ (0 < r ∧ 0 < (-7 : Int)) ∨ (r < 0 ∧ (-7 : Int) < 0)) → q = s.acc) ∧
      INT_MIN ≤ s.acc ∧ s.acc ≤ INT_MAX :=
  ⟨by decide, by decide, by decide,
   div_rounds_toward_zero ⟨0, 0, -7⟩ OP_DIV 2 (by decide) (by decide)⟩

/-! ## Claims about the harness -/

theorem iterations_ok_iff (clock : Nat → timespec) (size : Nat)
    (handler : Nat → MachineState → Option MachineState) (todo : Nat) :
    ∀ (iter ticks : Nat) (result : Int) (samples : List Int) (sum : Int), iter ≠ 0 →
      ((∃ v, iterations clock size handler todo iter ticks result samples sum = .ok v) ↔
        ∀ k, k < todo → ∃ st, handler (iter + k) MachineState.zero = some st ∧
          st.acc = result ∧ st.pc % 18446744073709551616 = (size : Int) ∧
          Int.land st.flags FLAG_HALTED ≠ 0) := by
  induction todo with
  | zero =>
    intro iter ticks result samples sum _
    simp [iterations]
  | succ todo ih =>
    intro iter ticks result samples sum hiter
    rw [iterations]
    cases hh : handler iter MachineState.zero with
    | none =>
      simp only
      constructor
      · rintro ⟨v, hv⟩; cases hv
      · intro h
        obtain ⟨st, hst, _⟩ := h 0 (Nat.succ_pos _)
        rw [Nat.add_zero, hh] at hst
        cases hst
    | some st =>
      simp only [hiter, ne_eq, not_false_eq_true, true_and, if_false]
      by_cases hacc : result = st.acc
      · by_cases hpc : st.pc % 18446744073709551616 = (size : Int)
        · by_cases hfl : Int.land st.flags FLAG_HALTED = 0
          · simp only [hacc, not_true_eq_false, if_false, hpc, hfl, if_true]
            constructor
            · rintro ⟨v, hv⟩; cases hv
            · intro h
              obtain ⟨st1, hst, _, _, hf⟩ := h 0 (Nat.succ_pos _)
              rw [Nat.add_zero, hh] at hst
              cases hst
              exact absurd hfl hf
          · simp only [hacc, not_true_eq_false, if_false, hpc, hfl]
            rw [ih (iter + 1) _ _ _ _ (Nat.succ_ne_zero _)]
            constructor
            · intro h k hk
              cases k with
              | zero => exact ⟨st, by rw [Nat.add_zero, hh], rfl, hpc, hfl⟩
              | succ k =>
                have := h k (by omega)
                rw [Nat.add_assoc, Nat.add_comm 1 k] at this
                exact this
            · intro h k hk
              have := h (k + 1) (by omega)
              rw [Nat.add_assoc, Nat.add_comm 1 k]
              exact this
        · simp only [hacc, not_true_eq_false, if_false, hpc, if_true]
          constructor
          · rintro ⟨v, hv⟩; cases hv
          · intro h
            obtain ⟨st1, hst, _, hp, _⟩ := h 0 (Nat.succ_pos _)
            rw [Nat.add_zero, hh] at hst
            cases hst
            exact absurd hp hpc
      · simp only [hacc, not_false_eq_true, if_true]
        constructor
        · rintro ⟨v, hv⟩; cases hv
        · intro h
          obtain ⟨st1, hst, ha, _⟩ := h 0 (Nat.succ_pos _)
          rw [Nat.add_zero, hh] at hst
          cases hst
          exact absurd ha.symm hacc

theorem iterations_ok_iff_first (clock : Nat → timespec) (size : Nat)
    (handler : Nat → MachineState → Option MachineState) (todo ticks : Nat) (result : Int)
    (samples : List Int) (sum : Int) :
    (∃ v, iterations clock size handler todo 0 ticks result samples sum = .ok v) ↔
      ∀ k, k < todo → ∃ st st0, handler k MachineState.zero = some st ∧
        handler 0 MachineState.zero = some st0 ∧ st.acc = st0.acc ∧
        st.pc % 18446744073709551616 = (size : Int) ∧
        Int.land st.flags FLAG_HALTED ≠ 0 := by
  cases todo with
  | zero => simp [iterations]
  | succ todo =>
    rw [iterations]
    cases hh : handler 0 MachineState.zero with
    | none =>
      simp only
      constructor
      · rintro ⟨v, hv⟩; cases hv
      · intro h
        obtain ⟨st, st0, hst, _⟩ := h 0 (Nat.succ_pos _)
        rw [hh] at hst
        cases hst
    | some st0 =>
      simp only [ne_eq, not_true_eq_false, false_and, if_false, if_true]
      by_cases hpc : st0.pc % 18446744073709551616 = (size : Int)
      · by_cases hfl : Int.land st0.flags FLAG_HALTED = 0
        · simp only [hpc, not_true_eq_false, if_false, hfl, if_true]
          constructor
          · rintro ⟨v, hv⟩; cases hv
          · intro h
            obtain ⟨st, st1, hst, _, _, _, hf⟩ := h 0 (Nat.succ_pos _)
            rw [hh] at hst
            cases hst
            exact absurd hfl hf
        · simp only [hpc, not_true_eq_false, if_false, hfl]
          rw [iterations_ok_iff clock size handler todo (0 + 1) _ _ _ _ (Nat.succ_ne_zero _)]
          constructor
          · intro h k hk
            cases k with
            | zero => exact ⟨st0, st0, hh, rfl, rfl, hpc, hfl⟩
            | succ k =>
              obtain ⟨st, hst, ha, hp, hf⟩ := h k (by omega)
              rw [Nat.zero_add, Nat.add_comm 1 k] at hst
              exact ⟨st, st0, hst, rfl, ha, hp, hf⟩
          · intro h k hk
            obtain ⟨st, st1, hst, hst1, ha, hp, hf⟩ := h (k + 1) (by omega)
            cases hst1
            rw [Nat.zero_add, Nat.add_comm 1 k]
            exact ⟨st, hst, ha, hp, hf⟩
      · simp only [hpc, not_false_eq_true, if_true]
        constructor
        · rintro ⟨v, hv⟩; cases hv
        · intro h
          obtain ⟨st, st1, hst, _, _, hp, _⟩ := h 0 (Nat.succ_pos _)
          rw [hh] at hst
          cases hst
          exact absurd hp hpc

theorem iterations_no_return (clock : Nat → timespec) (size : Nat)
    (handler : Nat → MachineState → Option MachineState) (todo : Nat) :
    ∀ (iter ticks : Nat) (result : Int) (samples : List Int) (sum : Int),
      iterations clock size handler todo iter ticks result samples sum = .no_return →
      ∃ k, handler k MachineState.zero = none := by
  induction todo with
  | zero =>
    intro iter ticks result samples sum h
    simp [iterations] at h
  | succ todo ih =>
    intro iter ticks result samples sum h
    rw [iterations] at h
    cases hh : handler iter MachineState.zero with
    | none => exact ⟨iter, hh⟩
    | some st =>
      simp only [hh] at h
      split at h
      · cases h
      · split at h
        · cases h
        · split at h
          · cases h
          · exact ih _ _ _ _ _ h

theorem run_method_ok_iff (clock : Nat → timespec) (size : Nat) (method : Method)
    (ticks : Nat) :
    (∃ v, run_method clock size method ticks = .ok v) ↔
      ∀ k, k < NUM_ITERATIONS → ∃ st st0, method.handler k MachineState.zero = some st ∧
        method.handler 0 MachineState.zero = some st0 ∧ st.acc = st0.acc ∧
        st.pc % 18446744073709551616 = (size : Int) ∧
        Int.land st.flags FLAG_HALTED ≠ 0 := by
  rw [← iterations_ok_iff_first clock size method.handler NUM_ITERATIONS ticks 0 [] 0]
  unfold run_method
  cases iterations clock size method.handler NUM_ITERATIONS 0 ticks 0 [] 0 with
  | ok v => simp
  | assertion_failed => simp
  | no_return => simp

theorem run_method_no_return (clock : Nat → timespec) (size : Nat) (method : Method)
    (ticks : Nat) (h : run_method clock size method ticks = .no_return) :
    ∃ k, method.handler k MachineState.zero = none := by
  unfold run_method at h
  cases hi : iterations clock size method.handler NUM_ITERATIONS 0 ticks 0 [] 0 with
  | ok v => rw [hi] at h; cases h
  | assertion_failed => rw [hi] at h; cases h
  | no_return => exact iterations_no_return _ _ _ _ _ _ _ _ _ hi

theorem main_loop_ok_iff (clock : Nat → timespec) (size : Nat) (methods : List Method) :
    ∀ ticks, (∃ out, main_loop clock size methods ticks = .ok out) ↔
      ∀ m ∈ methods, ∀ k, k < NUM_ITERATIONS →
        ∃ st st0, m.handler k MachineState.zero = some st ∧
          m.handler 0 MachineState.zero = some st0 ∧ st.acc = st0.acc ∧
          st.pc % 18446744073709551616 = (size : Int) ∧
          Int.land st.flags FLAG_HALTED ≠ 0 := by
  induction methods with
  | nil => intro ticks; simp [main_loop]
  | cons m rest ih =>
    intro ticks
    have hm := run_method_ok_iff clock size m ticks
    constructor
    · rintro ⟨out, hout⟩ m1 hm1in
      rw [main_loop] at hout
      cases hr : run_method clock size m ticks with
      | ok v =>
        obtain ⟨t, stats⟩ := v
        simp only [hr] at hout
        cases hrest : main_loop clock size rest t with
        | ok out1 =>
          rcases List.mem_cons.mp hm1in with h | h
          · rw [h]; exact hm.mp ⟨_, hr⟩
          · exact (ih t).mp ⟨_, hrest⟩ m1 h
        | assertion_failed => rw [hrest] at hout; cases hout
        | no_return => rw [hrest] at hout; cases hout
      | assertion_failed => simp only [hr] at hout; cases hout
      | no_return => simp only [hr] at hout; cases hout
    · intro hall
      obtain ⟨v, hv⟩ := hm.mpr (hall m (List.mem_cons_self _ _))
      obtain ⟨t, stats⟩ := v
      obtain ⟨out, ho⟩ := (ih t).mpr (fun m1 h => hall m1 (List.mem_cons_of_mem _ h))
      refine ⟨(m.name, stats) :: out, ?_⟩
      rw [main_loop]
      simp only [hv, ho]

theorem main_loop_no_return (clock : Nat → timespec) (size : Nat) (methods : List Method) :
    ∀ ticks, main_loop clock size methods ticks = .no_return →
      ∃ m ∈ methods, ∃ k, m.handler k MachineState.zero = none := by
  induction methods with
  | nil => intro ticks h; simp [main_loop] at h
  | cons m rest ih =>
    intro ticks h
    rw [main_loop] at h
    cases hr : run_method clock size m ticks with
    | ok v =>
      obtain ⟨t, stats⟩ := v
      simp only [hr] at h
      cases hrest : main_loop clock size rest t with
      | ok out => rw [hrest] at h; cases h
      | assertion_failed => rw [hrest] at h; cases h
      | no_return =>
        obtain ⟨m1, hm1, hk⟩ := ih t hrest
        exact ⟨m1, List.mem_cons_of_mem _ hm1, hk⟩
    | assertion_failed => simp only [hr] at h; cases h
    | no_return =>
      obtain ⟨k, hk⟩ := run_method_no_return clock size m ticks hr
      exact ⟨m, List.mem_cons_self _ _, k, hk⟩

/-- C12, counterexample: with a table of two engines that always end with
`REG_PC = 2` and HALTED set, the first with `REG_ACC = 5` and the second with
`REG_ACC = 7`, the harness loop over a buffer of two slots ends normally: the
second engine's value differs from the first engine's and no assertion fails. -/
theorem harness_consistency_counterexample :
    (∃ out, main_loop (fun k => ⟨0, 1000 * k⟩) 2
      [⟨"first", fun _ _ => some ⟨2, 1, 5⟩⟩, ⟨"second", fun _ _ => some ⟨2, 1, 7⟩⟩] 0 =
        .ok out) ∧
    (MachineState.mk 2 1 5).acc ≠ (MachineState.mk 2 1 7).acc := by
  refine ⟨(main_loop_ok_iff _ _ _ _).mpr ?_, by decide⟩
  intro m hm k _
  rcases List.mem_cons.mp hm with h | h
  · subst h
    exact ⟨_, _, rfl, rfl, rfl, by decide, by decide⟩
  · rw [List.mem_singleton] at h
    subst h
    exact ⟨_, _, rfl, rfl, rfl, by decide, by decide⟩

/-- C12, amended (the harness checks consistency across the runs of each engine):
taking the harness loop of `main` as a function of the engines in the methods
table, it ends normally if and only if, for every engine, every one of the
`NUM_ITERATIONS` runs returns with `REG_PC = ARRAY_SIZE(insns)`, the HALTED bit
set and the `REG_ACC` of that engine's first run; and when every call returns,
it fails an assertion whenever two runs of one engine end with different
`REG_ACC` values.  Values of different engines are not compared. -/
theorem harness_consistency (clock : Nat → timespec) (size : Nat) (methods : List Method)
    (ticks : Nat) :
    ((∃ out, main_loop clock size methods ticks = .ok out) ↔
      ∀ m ∈ methods, ∀ k, k < NUM_ITERATIONS →
        ∃ st st0, m.handler k MachineState.zero = some st ∧
          m.handler 0 MachineState.zero = some st0 ∧ st.acc = st0.acc ∧
          st.pc % 18446744073709551616 = (size : Int) ∧
          Int.land st.flags FLAG_HALTED ≠ 0) ∧
    ((∀ m ∈ methods, ∀ k, m.handler k MachineState.zero ≠ none) →
      (∃ m ∈ methods, ∃ i j si sj, i < NUM_ITERATIONS ∧ j < NUM_ITERATIONS ∧
        m.handler i MachineState.zero = some si ∧
        m.handler j MachineState.zero = some sj ∧ si.acc ≠ sj.acc) →
      main_loop clock size methods ticks = .assertion_failed) := by
  refine ⟨main_loop_ok_iff clock size methods ticks, fun hret hdiff => ?_⟩
  obtain ⟨m, hm, i, j, si, sj, hi, hj, hsi, hsj, hne⟩ := hdiff
  cases hres : main_loop clock size methods ticks with
  | ok out =>
    have hall := (main_loop_ok_iff clock size methods ticks).mp ⟨out, hres⟩ m hm
    obtain ⟨s1, s0, h1, h0, ha1, _, _⟩ := hall i hi
    obtain ⟨s2, s0b, h2, h0b, ha2, _, _⟩ := hall j hj
    rw [hsi] at h1
    rw [hsj] at h2
    rw [h0] at h0b
    cases h1
    cases h2
    cases h0b
    exact absurd (ha1.trans ha2.symm) hne
  | assertion_failed => rfl
  | no_return =>
    obtain ⟨m1, hm1, k, hk⟩ := main_loop_no_return clock size methods ticks hres
    exact absurd hk (hret m1 hm1 k)

/-- Witness of amended C12: one engine whose fourth run ends with `REG_ACC = 6`
and whose other runs end with `REG_ACC = 5`. -/
theorem harness_consistency_witness :
    main_loop (fun k => ⟨0, 1000 * k⟩) 2
      [⟨"flaky", fun k _ => some ⟨2, 1, if k = 3 then 6 else 5⟩⟩] 0 = .assertion_failed :=
  (harness_consistency (fun k => ⟨0, 1000 * k⟩) 2
    [⟨"flaky", fun k _ => some ⟨2, 1, if k = 3 then 6 else 5⟩⟩] 0).2
    (by
      intro m hm k
      rw [List.mem_singleton] at hm
      subst hm
      simp)
    ⟨_, List.mem_singleton.mpr rfl, 0, 3, ⟨2, 1, 5⟩, ⟨2, 1, 6⟩, by decide, by decide, rfl, rfl,
      by decide⟩

theorem orderedInsert_congr (r s : Int → Int → Prop) [DecidableRel r] [DecidableRel s]
    (a : Int) (l : List Int) (h : ∀ b ∈ l, (r a b ↔ s a b)) :
    l.orderedInsert r a = l.orderedInsert s a := by
  induction l with
  | nil => rfl
  | cons b l ih =>
    have hb := h b (List.mem_cons_self _ _)
    have ih1 := ih (fun c hc => h c (List.mem_cons_of_mem _ hc))
    simp only [List.orderedInsert]
    by_cases hr : r a b
    · simp [hr, hb.mp hr]
    · have hs : ¬ s a b := fun hs => hr (hb.mpr hs)
      simp [hr, hs, ih1]

theorem insertionSort_congr (r s : Int → Int → Prop) [DecidableRel r] [DecidableRel s]
    (l : List Int) (h : ∀ a ∈ l, ∀ b ∈ l, (r a b ↔ s a b)) :
    l.insertionSort r = l.insertionSort s := by
  induction l with
  | nil => rfl
  | cons a l ih =>
    have ih1 := ih (fun x hx y hy => h x (List.mem_cons_of_mem _ hx) y (List.mem_cons_of_mem _ hy))
    simp only [List.insertionSort]
    rw [ih1]
    apply orderedInsert_congr
    intro b hb
    have hbl : b ∈ l := (List.perm_insertionSort s l).subset hb
    exact h a (List.mem_cons_self _ _) b (List.mem_cons_of_mem _ hbl)

theorem compare_ints_le_iff (a b : Int) (ha : 0 ≤ a ∧ a ≤ INT_MAX) (hb : 0 ≤ b ∧ b ≤ INT_MAX) :
    compare_ints a b ≤ 0 ↔ a ≤ b := by
  obtain ⟨ha0, ha1⟩ := ha
  obtain ⟨hb0, hb1⟩ := hb
  simp only [INT_MAX] at ha1 hb1
  have hab : compare_ints a b = a - b :=
    wrap32_of_range (by simp only [INT_MIN]; omega) (by simp only [INT_MAX]; omega)
  rw [hab]
  omega

theorem qsort_compare_ints (samples : List Int)
    (h : ∀ x ∈ samples, 0 ≤ x ∧ x ≤ INT_MAX) :
    qsort samples compare_ints = samples.insertionSort (· ≤ ·) := by
  unfold qsort
  apply insertionSort_congr
  intro a ha b hb
  exact compare_ints_le_iff a b (h a ha) (h b hb)

theorem foldl_sum_samples (samples : List Int) :
    ∀ sum : Int, 0 ≤ sum → (∀ x ∈ samples, 0 ≤ x) → sum + samples.sum ≤ INT_MAX →
      samples.foldl (fun sum sample => wrap32 (sum + sample)) sum = sum + samples.sum := by
  induction samples with
  | nil => intro sum _ _ _; simp
  | cons a rest ih =>
    intro sum h0 hnn hle
    have ha := hnn a (List.mem_cons_self _ _)
    have hrest : ∀ x ∈ rest, 0 ≤ x := fun x hx => hnn x (List.mem_cons_of_mem _ hx)
    have hsum : 0 ≤ rest.sum := List.sum_nonneg hrest
    simp only [List.sum_cons] at hle
    have hw : wrap32 (sum + a) = sum + a :=
      wrap32_of_range (by simp only [INT_MIN]; omega) (by omega)
    simp only [List.foldl_cons, List.sum_cons, hw]
    rw [ih (sum + a) (by omega) hrest (by omega)]
    ring

theorem sum_samples_eq (samples : List Int) (hnn : ∀ x ∈ samples, 0 ≤ x)
    (hsum : samples.sum ≤ INT_MAX) : sum_samples samples = samples.sum := by
  have := foldl_sum_samples samples 0 (le_refl 0) hnn (by simpa using hsum)
  simpa [sum_samples] using this

theorem sample_le_sum (samples : List Int) (hnn : ∀ x ∈ samples, 0 ≤ x) :
    ∀ x ∈ samples, x ≤ samples.sum := by
  induction samples with
  | nil => intro x hx; cases hx
  | cons a rest ih =>
    intro x hx
    have ha := hnn a (List.mem_cons_self _ _)
    have hrest : ∀ y ∈ rest, 0 ≤ y := fun y hy => hnn y (List.mem_cons_of_mem _ hy)
    have hsum : 0 ≤ rest.sum := List.sum_nonneg hrest
    simp only [List.sum_cons]
    rcases List.mem_cons.mp hx with h | h
    · omega
    · have := ih hrest x h
      omega

theorem sorted_getElem_le (l : List Int) (hs : l.Sorted (· ≤ ·)) (i j : Nat)
    (hij : i ≤ j) (hj : j < l.length) :
    l.getD i 0 ≤ l.getD j 0 := by
  have hi : i < l.length := by omega
  rw [List.getD_eq_getElem l 0 hi, List.getD_eq_getElem l 0 hj]
  exact hs.rel_get_of_le (a := ⟨i, hi⟩) (b := ⟨j, hj⟩) hij

theorem sorted_count_le (l : List Int) (hs : l.Sorted (· ≤ ·)) (i : Nat)
    (hi : i < l.length) :
    i + 1 ≤ l.countP (fun x => decide (x ≤ l.getD i 0)) ∧
    l.length - i ≤ l.countP (fun x => decide (l.getD i 0 ≤ x)) := by
  constructor
  · have hsplit : l = l.take (i + 1) ++ l.drop (i + 1) := (List.take_append_drop _ _).symm
    have hall : ∀ x ∈ l.take (i + 1), decide (x ≤ l.getD i 0) = true := by
      intro x hx
      obtain ⟨k, hk, rfl⟩ := List.getElem_of_mem hx
      have hk1 : k < i + 1 := by
        have := List.length_take_le (i + 1) l
        omega
      have hk2 : k < l.length := by omega
      rw [List.getElem_take]
      have := sorted_getElem_le l hs k i (by omega) hi
      rw [List.getD_eq_getElem l 0 hk2] at this
      simpa using this
    have hcount : (l.take (i + 1)).countP (fun x => decide (x ≤ l.getD i 0)) =
        (l.take (i + 1)).length := List.countP_eq_length.mpr hall
    have hlen : (l.take (i + 1)).length = i + 1 := by
      rw [List.length_take]; omega
    calc i + 1 = (l.take (i + 1)).countP (fun x => decide (x ≤ l.getD i 0)) := by
          rw [hcount, hlen]
      _ ≤ (l.take (i + 1)).countP (fun x => decide (x ≤ l.getD i 0)) +
            (l.drop (i + 1)).countP (fun x => decide (x ≤ l.getD i 0)) := Nat.le_add_right _ _
      _ = l.countP (fun x => decide (x ≤ l.getD i 0)) := by
          rw [← List.countP_append, List.take_append_drop]
  · have hall : ∀ x ∈ l.drop i, decide (l.getD i 0 ≤ x) = true := by
      intro x hx
      obtain ⟨k, hk, rfl⟩ := List.getElem_of_mem hx
      rw [List.length_drop] at hk
      rw [List.getElem_drop]
      have := sorted_getElem_le l hs i (i + k) (by omega) (by omega)
      rw [List.getD_eq_getElem l 0 (by omega : i + k < l.length)] at this
      simpa using this
    have hcount : (l.drop i).countP (fun x => decide (l.getD i 0 ≤ x)) =
        (l.drop i).length := List.countP_eq_length.mpr hall
    calc l.length - i = (l.drop i).countP (fun x => decide (l.getD i 0 ≤ x)) := by
          rw [hcount, List.length_drop]
      _ ≤ (l.take i).countP (fun x => decide (l.getD i 0 ≤ x)) +
            (l.drop i).countP (fun x => decide (l.getD i 0 ≤ x)) := Nat.le_add_left _ _
      _ = l.countP (fun x => decide (l.getD i 0 ≤ x)) := by
          rw [← List.countP_append, List.take_append_drop]

theorem sorted_bounds (l : List Int) (hs : l.Sorted (· ≤ ·)) (x : Int) (hx : x ∈ l) :
    l.getD 0 0 ≤ x ∧ x ≤ l.getD (l.length - 1) 0 := by
  obtain ⟨k, hk, rfl⟩ := List.getElem_of_mem hx
  have h1 := sorted_getElem_le l hs 0 k (Nat.zero_le _) hk
  have h2 := sorted_getElem_le l hs k (l.length - 1) (by omega) (by omega)
  rw [List.getD_eq_getElem l 0 hk] at h1 h2
  exact ⟨h1, h2⟩

theorem getD_mem (l : List Int) (i : Nat) (hi : i < l.length) : l.getD i 0 ∈ l := by
  rw [List.getD_eq_getElem l 0 hi]
  exact List.getElem_mem hi

theorem iterations_sum (clock : Nat → timespec) (size : Nat)
    (handler : Nat → MachineState → Option MachineState) (todo : Nat) :
    ∀ (iter ticks : Nat) (result : Int) (samples : List Int) (sum : Int)
      (v : Nat × List Int × Int),
      iterations clock size handler todo iter ticks result samples sum = .ok v →
      sum = sum_samples samples →
      v.2.2 = sum_samples v.2.1 ∧ v.2.1.length = samples.length + todo := by
  induction todo with
  | zero =>
    intro iter ticks result samples sum v h hsum
    simp only [iterations] at h
    cases h
    exact ⟨hsum, rfl⟩
  | succ todo ih =>
    intro iter ticks result samples sum v h hsum
    rw [iterations] at h
    cases hh : handler iter MachineState.zero with
    | none => simp only [hh] at h; cases h
    | some st =>
      simp only [hh] at h
      split at h
      · cases h
      · split at h
        · cases h
        · split at h
          · cases h
          · have := ih _ _ _ _ _ v h (by
              rw [hsum]
              simp [sum_samples, List.foldl_append])
            refine ⟨this.1, ?_⟩
            rw [this.2, List.length_append, List.length_singleton]
            omega

theorem run_method_report (clock : Nat → timespec) (size : Nat) (method : Method)
    (ticks t : Nat) (stats : Stats)
    (h : run_method clock size method ticks = .ok (t, stats)) :
    ∃ samples : List Int, samples.length = NUM_ITERATIONS ∧
      stats = report samples (sum_samples samples) := by
  unfold run_method at h
  cases hi : iterations clock size method.handler NUM_ITERATIONS 0 ticks 0 [] 0 with
  | ok v =>
    obtain ⟨t1, samples, sum⟩ := v
    rw [hi] at h
    simp only [Harness.ok.injEq, Prod.mk.injEq] at h
    have := iterations_sum clock size method.handler NUM_ITERATIONS 0 ticks 0 [] 0 _ hi rfl
    simp only [List.length_nil, Nat.zero_add] at this
    exact ⟨samples, this.2, by rw [← h.2, this.1]⟩
  | assertion_failed => rw [hi] at h; cases h
  | no_return => rw [hi] at h; cases h

/-- C16 (the reported statistics match their definitions): for every array of
`NUM_ITERATIONS` non-negative samples whose sum fits a 32-bit `int`, the
accumulated `sum` is their sum and the statistics block reports as `min` the
least sample, as `max` the greatest sample, as `avg` the quotient of the sum by
1000 rounded down, and as `med` the element at index 500 of the ascending sort
of the samples; at least half of the samples are at most `med`, at least half
are at least `med`, and `min ≤ med ≤ max`. -/
theorem statistics_match (samples : List Int) (hlen : samples.length = NUM_ITERATIONS)
    (hnn : ∀ x ∈ samples, 0 ≤ x) (hsum : samples.sum ≤ INT_MAX) :
    sum_samples samples = samples.sum ∧
    ∃ st, report samples (sum_samples samples) = st ∧
      (st.min ∈ samples ∧ ∀ x ∈ samples, st.min ≤ x) ∧
      (st.max ∈ samples ∧ ∀ x ∈ samples, x ≤ st.max) ∧
      st.avg = samples.sum / 1000 ∧
      (∃ sorted : List Int, sorted.Sorted (· ≤ ·) ∧ sorted.Perm samples ∧
        sorted[NUM_ITERATIONS / 2]? = some st.med) ∧
      NUM_ITERATIONS ≤ 2 * samples.countP (fun x => decide (x ≤ st.med)) ∧
      NUM_ITERATIONS ≤ 2 * samples.countP (fun x => decide (st.med ≤ x)) ∧
      st.min ≤ st.med ∧ st.med ≤ st.max := by
  have hrange : ∀ x ∈ samples, 0 ≤ x ∧ x ≤ INT_MAX := fun x hx =>
    ⟨hnn x hx, le_trans (sample_le_sum samples hnn x hx) hsum⟩
  have hq := qsort_compare_ints samples hrange
  have hs : (samples.insertionSort (· ≤ ·)).Sorted (· ≤ ·) := List.sorted_insertionSort _ _
  have hp : (samples.insertionSort (· ≤ ·)).Perm samples := List.perm_insertionSort _ _
  have hl : (samples.insertionSort (· ≤ ·)).length = 1000 := hp.length_eq.trans hlen
  have hsumeq := sum_samples_eq samples hnn hsum
  have hsum0 : 0 ≤ samples.sum := List.sum_nonneg hnn
  refine ⟨hsumeq, report samples (sum_samples samples), rfl, ?_⟩
  simp only [report, hq, hsumeq, NUM_ITERATIONS, Nat.reduceDiv, Nat.reduceSub]
  have hcount := sorted_count_le _ hs 500 (by omega)
  have hb : ∀ x ∈ samples, (samples.insertionSort (· ≤ ·)).getD 0 0 ≤ x ∧
      x ≤ (samples.insertionSort (· ≤ ·)).getD 999 0 := by
    intro x hx
    have := sorted_bounds _ hs x (hp.symm.subset hx)
    rw [hl] at this
    exact this
  have hmed : (samples.insertionSort (· ≤ ·)).getD 500 0 ∈ samples :=
    hp.subset (getD_mem _ 500 (by omega))
  refine ⟨⟨hp.subset (getD_mem _ 0 (by omega)), fun x hx => (hb x hx).1⟩,
    ⟨hp.subset (getD_mem _ 999 (by omega)), fun x hx => (hb x hx).2⟩, ?_,
    ⟨_, hs, hp, ?_⟩, ?_, ?_, (hb _ hmed).1, (hb _ hmed).2⟩
  · simp only [INT_MAX] at hsum
    unfold wrap32
    omega
  · rw [List.getD_eq_getElem _ 0 (by omega : 500 < (samples.insertionSort (· ≤ ·)).length)]
    exact List.getElem?_eq_getElem _
  · rw [← hp.countP_eq]
    have := hcount.1
    omega
  · rw [← hp.countP_eq]
    have := hcount.2
    rw [hl] at this
    omega

/-- Witness of C16: 400 samples of 5 microseconds followed by 600 samples of 2
microseconds. -/
theorem statistics_match_witness :
    (List.replicate 400 (5 : Int) ++ List.replicate 600 2).length = NUM_ITERATIONS ∧
    sum_samples (List.replicate 400 (5 : Int) ++ List.replicate 600 2) =
      (List.replicate 400 (5 : Int) ++ List.replicate 600 2).sum ∧
    ∃ st, report (List.replicate 400 (5 : Int) ++ List.replicate 600 2)
        (sum_samples (List.replicate 400 (5 : Int) ++ List.replicate 600 2)) = st ∧
      (st.min ∈ List.replicate 400 (5 : Int) ++ List.replicate 600 2 ∧
        ∀ x ∈ List.replicate 400 (5 : Int) ++ List.replicate 600 2, st.min ≤ x) ∧
      (st.max ∈ List.replicate 400 (5 : Int) ++ List.replicate 600 2 ∧
        ∀ x ∈ List.replicate 400 (5 : Int) ++ List.replicate 600 2, x ≤ st.max) ∧
      st.avg = (List.replicate 400 (5 : Int) ++ List.replicate 600 2).sum / 1000 ∧
      (∃ sorted : List Int, sorted.Sorted (· ≤ ·) ∧
        sorted.Perm (List.replicate 400 (5 : Int) ++ List.replicate 600 2) ∧
        sorted[NUM_ITERATIONS / 2]? = some st.med) ∧
      NUM_ITERATIONS ≤ 2 * (List.replicate 400 (5 : Int) ++ List.replicate 600 2).countP
        (fun x => decide (x ≤ st.med)) ∧
      NUM_ITERATIONS ≤ 2 * (List.replicate 400 (5 : Int) ++ List.replicate 600 2).countP
        (fun x => decide (st.med ≤ x)) ∧
      st.min ≤ st.med ∧ st.med ≤ st.max :=
  ⟨by rw [List.length_append, List.length_replicate, List.length_replicate],
   statistics_match (List.replicate 400 (5 : Int) ++ List.replicate 600 2)
    (by rw [List.length_append, List.length_replicate, List.length_replicate])
    (by
      intro x hx
      rcases List.mem_append.mp hx with h | h
      · rw [List.eq_of_mem_replicate h]; decide
      · rw [List.eq_of_mem_replicate h]; decide)
    (by
      rw [List.sum_append, List.sum_replicate, List.sum_replicate]
      norm_num)⟩

end Bench
